import Mathlib

set_option linter.unusedVariables false

/-!
Verification of the track-overlay and form-builder modules of the repository.

The first part embeds `sleap/gui/overlays/tracks.py`; the second part embeds
`sleap/gui/formbuilder.py`.  Qt collaborator behaviour (spin-box clamping,
combo-box current-index rules) is modelled where the code's observable values
depend on it, with a comment at each such definition.
-/

/-- Python list slicing `l[a:]` for an arbitrary integer `a`: a negative
start counts from the end and is clipped at zero, a non-negative start drops
that many elements.  In particular `l[-0:] = l[0:] = l`. -/
def pySliceFrom (a : Int) (l : List α) : List α :=
  if a < 0 then l.drop (l.length - (-a).toNat) else l.drop a.toNat

/-- Python list indexing `l[i]` (`none` models the raised `IndexError`):
valid for `-len ≤ i < len`, negative indices count from the end. -/
def pyListGet (l : List α) (i : Int) : Option α :=
  if 0 ≤ i then l[i.toNat]?
  else if (-i).toNat ≤ l.length then l[(l.length - (-i).toNat)]?
  else none

namespace SleapTracks

/-- One landmark point of an instance: `(x, y)` plus its visibility flag
(`inst[node].x`, `inst[node].y`, `inst[node].visible`). -/
structure PointData where
  x : ℚ
  y : ℚ
  visible : Bool
deriving DecidableEq, Repr

/-- One tracked entity's pose in a frame (`Instance`): its track (possibly
`None`) and its named landmark points (`inst.nodes` / `inst[node]`). -/
structure InstanceData where
  track : Option String
  points : List (String × PointData)
deriving DecidableEq, Repr

/-- A labeled frame: video identity, frame index, and the instances in it. -/
structure LabeledFrame where
  video : String
  frame_idx : Nat
  instances : List InstanceData
deriving DecidableEq, Repr

/-- The labeled-frame store (`Labels`): the fixed ordered landmark list
`labels.nodes` and the labeled frames. -/
structure Labels where
  nodes : List String
  labeled_frames : List LabeledFrame
deriving DecidableEq, Repr

/-- Embedding of `labels.find(video, range(0, frame_idx + 1))`: the labeled frames of
`video` whose frame index lies in `[0, frame_idx]`, in store order. -/
def Labels.findUpTo (labels : Labels) (video : String) (frame_idx : Nat) :
    List LabeledFrame :=
  labels.labeled_frames.filter
    (fun lf => lf.video == video && lf.frame_idx ≤ frame_idx)

/-- Embedding of `labels.find(video, frame_idx)`: the labeled frames of `video` with
exactly the given frame index. -/
def Labels.findAt (labels : Labels) (video : String) (frame_idx : Nat) :
    List LabeledFrame :=
  labels.labeled_frames.filter
    (fun lf => lf.video == video && lf.frame_idx == frame_idx)

/-- Stable insertion used to model Python's stable `list.sort(key=...)`:
an element is placed before the first strictly greater key, after equal
keys, which preserves the original order of equal-key elements. -/
def insertByIdx (a : LabeledFrame) : List LabeledFrame → List LabeledFrame
  | [] => [a]
  | b :: bs =>
      if a.frame_idx ≤ b.frame_idx then a :: b :: bs else b :: insertByIdx a bs

/-- Embedding of `frame_selection.sort(key=lambda x: x.frame_idx)`: Python's `list.sort`
is a stable ascending sort by the key; any stable sort produces the same
list, so a stable insertion sort is used. -/
def pySortByIdx (l : List LabeledFrame) : List LabeledFrame :=
  l.foldr insertByIdx []

/-- Embedding of `TrackTrailOverlay.get_frame_selection`: labeled frames of `video` with
index in `[0, frame_idx]`, sorted ascending by frame index, then sliced with
`[-trail_length:]`. -/
def get_frame_selection (labels : Labels) (trail_length : Int)
    (video : String) (frame_idx : Nat) : List LabeledFrame :=
  pySliceFrom (-trail_length) (pySortByIdx (labels.findUpTo video frame_idx))

/-- Embedding of `TrackTrailOverlay.get_tracks_in_frame`: the tracks (one per instance,
in frame order, duplicates kept) of either the trail window
(`include_trails=True`) or just the frames at `frame_idx`. -/
def get_tracks_in_frame (labels : Labels) (trail_length : Int)
    (video : String) (frame_idx : Nat) (include_trails : Bool) :
    List (Option String) :=
  let lfs := if include_trails then
      get_frame_selection labels trail_length video frame_idx
    else labels.findAt video frame_idx
  (lfs.map (fun lf => lf.instances.map (·.track))).flatten

/-- Embedding of `inst[node]` lookup: the point stored for a node name, when present. -/
def InstanceData.lookupNode (inst : InstanceData) (node : String) :
    Option PointData :=
  (inst.points.find? (fun p => p.1 == node)).map (·.2)

/-- One iteration of the frame loop in `get_track_trails`: if the frame has
an instance on the track, every node's trail is extended (visible point, or
carried-forward last sample, or left as is when empty); a frame without an
instance on the track leaves every trail unchanged. -/
def trail_step (nodes : List String) (track : Option String)
    (trails : List (List (ℚ × ℚ))) (frame : LabeledFrame) :
    List (List (ℚ × ℚ)) :=
  match (frame.instances.filter (fun i => i.track == track)).head? with
  | none => trails
  | some inst =>
      (nodes.zip trails).map (fun nt =>
        let trail := nt.2
        let vis : Option (ℚ × ℚ) :=
          match inst.lookupNode nt.1 with
          | some p => if p.visible then some (p.x, p.y) else none
          | none => none
        match vis with
        | some pt => trail ++ [pt]
        | none =>
            match trail.getLast? with
            | some last => trail ++ [last]
            | none => trail)

/-- Embedding of `TrackTrailOverlay.get_track_trails`: per node of `labels.nodes`, the
sample list accumulated over `frame_selection` in order. -/
def get_track_trails (labels : Labels) (frame_selection : List LabeledFrame)
    (track : Option String) : List (List (ℚ × ℚ)) :=
  frame_selection.foldl (trail_step labels.nodes track)
    (List.replicate labels.nodes.length [])

/-- A drawing primitive issued to the scene: `addPolygon` with the pen colour
taken from the colour manager for `track` and the given alpha. -/
inductive DrawCmd where
  | polygon (points : List (ℚ × ℚ)) (track : Option String) (alpha : ℚ)
deriving DecidableEq, Repr

/-- Embedding of `TrackTrailOverlay.add_to_scene`: no-op unless `show`; otherwise for each
entry of `tracks_in_frame` and each node trail, first `trail[:half]` is added
with alpha 1, then `trail[half:]` with alpha 0.5, where
`half = len(trail) // 2`. -/
def add_to_scene (labels : Labels) (trail_length : Int) (show_trails : Bool)
    (video : String) (frame_idx : Nat) : List DrawCmd :=
  if !show_trails then []
  else
    let frame_selection := get_frame_selection labels trail_length video frame_idx
    let tracks_in_frame :=
      get_tracks_in_frame labels trail_length video frame_idx true
    tracks_in_frame.foldl (fun cmds track =>
      (get_track_trails labels frame_selection track).foldl (fun cmds trail =>
        let half := trail.length / 2
        cmds ++ [DrawCmd.polygon (trail.take half) track 1]
             ++ [DrawCmd.polygon (trail.drop half) track (mkRat 1 2)]) cmds) []

/-- The pair of scene commands produced for one trail of one track. -/
def trailCmds (track : Option String) (trail : List (ℚ × ℚ)) : List DrawCmd :=
  [DrawCmd.polygon (trail.take (trail.length / 2)) track 1,
   DrawCmd.polygon (trail.drop (trail.length / 2)) track (mkRat 1 2)]

/-- An uppercase hexadecimal digit, for Python's `f"{n:02X}"`. -/
def hexDigit (n : Nat) : Char :=
  if n < 10 then Char.ofNat (48 + n) else Char.ofNat (55 + n)

/-- Python `f"{n:02X}"` for a colour channel `n ≤ 255`. -/
def hex2 (n : Nat) : String :=
  String.mk [hexDigit (n / 16 % 16), hexDigit (n % 16)]

/-- The rich-text fragment built for the track at 0-based position `i`:
bold name, with ` (idx)` appended exactly when `str(idx) != track.name`
for the 1-based `idx`, wrapped in a colour span (`cm` is the colour manager
collaborator, returning an RGB triple). -/
def track_span (cm : String → Nat × Nat × Nat) (i : Nat) (name : String) :
    String :=
  let idx := i + 1
  let c := cm name
  let html_color := "#" ++ hex2 c.1 ++ hex2 c.2.1 ++ hex2 c.2.2
  let track_text := "<b>" ++ name ++ "</b>"
  let track_text :=
    if toString idx ≠ name then track_text ++ " (" ++ toString idx ++ ")"
    else track_text
  "<span style=\x27color:" ++ html_color ++ "\x27>" ++ track_text ++ "</span>"

/-- Embedding of `TrackListOverlay.add_to_scene`, html construction: iterate over
`labels.tracks[:min(9, len(labels.tracks))]` with a 1-based counter, joining
the spans with `<br />` (the leading-separator test `if html:`). -/
def track_list_html (cm : String → Nat × Nat × Nat) (tracks : List String) :
    String :=
  let num_to_show := min 9 tracks.length
  ((tracks.take num_to_show).foldl (fun (acc : String × Nat) name =>
      let html := if acc.1 ≠ "" then acc.1 ++ "<br />" else acc.1
      (html ++ track_span cm acc.2 name, acc.2 + 1)) ("", 0)).1

end SleapTracks

namespace SleapForm

/-- Python `s.startswith(pre)` (stated on the character lists; Lean's
`String.startsWith` is not kernel-reducible). -/
def pyStartsWith (s pre : String) : Bool := pre.toList.isPrefixOf s.toList

/-- ASCII lower-casing of one character (all strings lower-cased by the code
are ASCII). -/
def lowerChar (c : Char) : Char :=
  if 65 ≤ c.toNat && c.toNat ≤ 90 then Char.ofNat (c.toNat + 32) else c

/-- Python `s.lower()` for the ASCII strings compared by the code. -/
def pyLower (s : String) : String := String.mk (s.toList.map lowerChar)

/-- Splitting a character list on a separator character, Python style:
`"a_b" -> ["a", "b"]`, `"abc" -> ["abc"]`, `"_a" -> ["", "a"]`. -/
def splitChars (sep : Char) : List Char → List (List Char)
  | [] => [[]]
  | c :: cs =>
      let r := splitChars sep cs
      if c == sep then [] :: r
      else
        match r with
        | [] => [[c]]
        | g :: gs => (c :: g) :: gs

/-- Python `s.split("_")` (the only separator the code splits on). -/
def pySplitUnderscore (s : String) : List String :=
  (splitChars '_' s.toList).map String.mk

/-- The numeric value of an ASCII digit. -/
def digitVal (c : Char) : Option Nat :=
  if 48 ≤ c.toNat && c.toNat ≤ 57 then some (c.toNat - 48) else none

/-- Accumulating decimal parse; `none` until at least one digit was seen. -/
def digitsVal : List Char → Option Nat → Option Nat
  | [], acc => acc
  | c :: cs, acc =>
      match digitVal c, acc with
      | some d, some a => digitsVal cs (some (a * 10 + d))
      | some d, none => digitsVal cs (some d)
      | none, _ => none

/-- Python `int(s)` for canonical decimal strings, `none` modelling the
`ValueError` (Python's tolerance for whitespace and a leading `+` is not
modelled; no theorem depends on it). -/
def pyParseInt (s : String) : Option Int :=
  match s.toList with
  | '-' :: rest => (digitsVal rest none).map (fun n => -(n : Int))
  | l => (digitsVal l none).map (fun n => (n : Int))

/-- A Python value as held by a form field: `None`, bool, int, float or
string. -/
inductive Value where
  | none
  | bool (b : Bool)
  | int (n : Int)
  | float (q : ℚ)
  | str (s : String)
deriving DecidableEq, Repr

/-- Python `str()` of a float.  Integral floats print as in Python; the
textual form of a non-integral float is abstracted (no theorem depends on
it). -/
def pyFloatStr (q : ℚ) : String :=
  if q.den == 1 then toString q.num ++ ".0" else toString q

/-- Python `str(val)` for the value kinds above. -/
def pyStr : Value → String
  | .none => "None"
  | .bool b => if b then "True" else "False"
  | .int n => toString n
  | .float q => pyFloatStr q
  | .str s => s

/-- Python truthiness, as applied by `setChecked(val)`. -/
def pyTruthy : Value → Bool
  | .none => false
  | .bool b => b
  | .int n => n != 0
  | .float q => q != 0
  | .str s => s != ""

/-- Python `int(val)` (`none` models the raised `TypeError`/`ValueError`):
floats truncate toward zero, booleans map to 0/1, strings parse in canonical
decimal form (Python's tolerance for surrounding whitespace is not modelled,
no theorem depends on it). -/
def pyToIntOpt : Value → Option Int
  | .int n => some n
  | .float q => some (q.num / (q.den : Int))
  | .bool b => some (if b then 1 else 0)
  | .str s => pyParseInt s
  | .none => Option.none

/-- Python `float(val)` (`none` models the raised error; string parsing is
not modelled, no theorem depends on it). -/
def pyToRatOpt : Value → Option ℚ
  | .int n => some (n : ℚ)
  | .float q => some q
  | .bool b => some (if b then 1 else 0)
  | .str _ => Option.none
  | .none => Option.none

/-- Python substring test `sub in s` (this is what `val.lower() in ("none")`
performs: `("none")` is a parenthesised string, not a tuple). -/
def pyInStr (sub s : String) : Bool :=
  s.toList.tails.any (fun t => sub.toList.isPrefixOf t)

/-- State of a Qt spin box.  `QSpinBox()` defaults to range `[0, 99]`,
`QDoubleSpinBox()` to `[0.0, 99.99]` with two decimals. -/
inductive SpinState where
  | intSpin (lo hi cur : Int)
  | doubleSpin (lo hi cur : ℚ)
deriving DecidableEq, Repr

def clampI (lo hi n : Int) : Int := max lo (min hi n)

def clampQ (lo hi q : ℚ) : ℚ := if Rat.blt q lo then lo else if Rat.blt hi q then hi else q

/-- Qt's rounding of a `QDoubleSpinBox` value to its two default decimals
(ties rounded up; every theorem only uses values already fixed by this
rounding). -/
def round2 (q : ℚ) : ℚ := mkRat (Int.fdiv (200 * q.num + (q.den : Int)) (2 * (q.den : Int))) 100

/-- Embedding of `value()` of a spin box: an int for `QSpinBox`, a float for
`QDoubleSpinBox`. -/
def SpinState.value : SpinState → Value
  | .intSpin _ _ cur => .int cur
  | .doubleSpin _ _ cur => .float cur

/-- Embedding of `setValue` on a spin box: the argument is coerced to the box's numeric
type (PySide2 converts a Python float argument of an int parameter by
truncation), rounded (double box) and clamped to the range; `none` models a
conversion error. -/
def SpinState.setValue : SpinState → Value → Option SpinState
  | .intSpin lo hi _, v =>
      (pyToIntOpt v).map (fun n => .intSpin lo hi (clampI lo hi n))
  | .doubleSpin lo hi _, v =>
      (pyToRatOpt v).map (fun q => .doubleSpin lo hi (clampQ lo hi (round2 q)))

/-- A combo-box row; `insertSeparator` rows have empty text. -/
inductive ComboItem where
  | sep
  | opt (text : String)
deriving DecidableEq, Repr

def ComboItem.text : ComboItem → String
  | .sep => ""
  | .opt s => s

/-- State of a `FieldComboWidget` (a `QComboBox` subclass). -/
structure ComboState where
  result_as_idx : Bool
  add_blank_option : Bool
  options_list : List String
  items : List ComboItem
  currentIndex : Int
deriving DecidableEq, Repr

namespace FieldComboWidget

/-- Embedding of `QComboBox.findText`: index of the first row whose text matches exactly,
`-1` when absent. -/
def findText : List ComboItem → String → Int
  | [], _ => -1
  | it :: rest, t =>
      if it.text == t then 0
      else if findText rest t < 0 then -1 else findText rest t + 1

/-- Embedding of `QComboBox.currentText`: the current row's text, `""` when no row is
current. -/
def currentText (c : ComboState) : String :=
  if c.currentIndex < 0 then ""
  else ((c.items[c.currentIndex.toNat]?).map ComboItem.text).getD ""

/-- Embedding of `QComboBox.setCurrentText` on a non-editable box: select the first row
with that exact text, otherwise leave the selection unchanged. -/
def setCurrentText (c : ComboState) (t : String) : ComboState :=
  let i := findText c.items t
  if i > -1 then { c with currentIndex := i } else c

/-- Embedding of `FieldComboWidget.value`: current index minus one for the blank row in
index mode, the current text otherwise. -/
def value (c : ComboState) : Value :=
  if c.result_as_idx then
    .int (c.currentIndex - (if c.add_blank_option then 1 else 0))
  else .str (currentText c)

/-- Embedding of `FieldComboWidget.setValue`: note the non-strict `val <=
len(self.options_list)` guard in the source; `none` models the `IndexError`
raised by `self.options_list[val]`. -/
def setValue (c : ComboState) (val : Value) : Option ComboState :=
  match val with
  | .int n =>
      if n ≤ (c.options_list.length : Int) && c.result_as_idx then
        (pyListGet c.options_list n).map (fun s => setCurrentText c s)
      else some (setCurrentText c (pyStr (.int n)))
  | v => some (setCurrentText c (pyStr v))

/-- Embedding of `FieldComboWidget.set_options`: rebuild the rows (blank row first in
blank mode, `"---"` becomes a separator), then select `select_item` when one
is given.  Qt detail: `clear()` leaves no current row (`-1`) and inserting
the first row makes it current (`0`). -/
def set_options (c : ComboState) (options_list : List String)
    (select_item : Option Value) : Option ComboState :=
  let items :=
    (if c.add_blank_option then [ComboItem.opt ""] else []) ++
      options_list.map (fun item =>
        if item == "---" then ComboItem.sep else ComboItem.opt item)
  let cur : Int := if items.isEmpty then -1 else 0
  let c2 : ComboState :=
    { c with options_list := options_list, items := items, currentIndex := cur }
  match select_item with
  | some s => setValue c2 s
  | Option.none => some c2

end FieldComboWidget

namespace OptionalSpinWidget

/-- CPython semantics of the test `type is "double"` in
`OptionalSpinWidget.__init__`: `is` compares object identity, and at the only
call site (`FormBuilderLayout.build_form`) the argument is produced by
`item["type"].split("_")`, a fresh uninterned string object that is never the
same object as the literal `"double"`, so the test evaluates to `False` even
when the strings are equal (CPython flags this line with `SyntaxWarning:
"is" with a literal`). -/
def py_is_literal_double (ty : String) : Bool := false

/-- The spinner chosen by `OptionalSpinWidget.__init__`:
`QtWidgets.QDoubleSpinBox() if type is "double" else QtWidgets.QSpinBox()`,
each with its Qt default range. -/
def initSpin (ty : String) : SpinState :=
  if py_is_literal_double ty then .doubleSpin 0 (mkRat 9999 100) 0 else .intSpin 0 99 0

/-- Embedding of `OptionalSpinWidget.isNoneVal`.  Mind the source's parentheses: the outer
test `self.none_string.lower() in ("", "none")` is tuple membership, but both
inner tests `val.lower() in ("none")` / `in ("auto")` and the `elif ... in
("auto")` are substring tests on a plain string. -/
def isNoneVal (none_string : String) (v : Value) : Bool :=
  match v with
  | .none => true
  | .str s =>
      if pyLower none_string == "" || pyLower none_string == "none" then
        pyInStr (pyLower s) "none"
      else if pyInStr (pyLower none_string) "auto" then
        pyInStr (pyLower s) "auto"
      else false
  | _ => false

/-- Embedding of `OptionalSpinWidget.value`: `None` when the checkbox is checked, else the
spinner's value. -/
def value (checked : Bool) (spin : SpinState) : Value :=
  if checked then .none else spin.value

/-- Embedding of `OptionalSpinWidget.setValue`: check the box on a "none" value, otherwise
uncheck it and forward to the spinner. -/
def setValue (none_string : String) (checked : Bool) (spin : SpinState)
    (v : Value) : Option (Bool × SpinState) :=
  let is_none := isNoneVal none_string v
  if is_none then some (true, spin)
  else (spin.setValue v).map (fun s => (false, s))

end OptionalSpinWidget

/-- Embedding of `item["type"].split("_")[-1]`, the spinner type string of an
`optional_int` / `optional_double` / `auto_int` descriptor. -/
def spin_type_of (t : String) : String := (pySplitUnderscore t).getLastD ""

/-- Embedding of `"auto" if item["type"].startswith("auto") else "none"`. -/
def none_string_of (t : String) : String :=
  if pyStartsWith t "auto" then "auto" else "none"

/-- The `result_as_optional_idx` flag computed by `build_form` for a `list`
field: true exactly when `type-options` is `"optional_index"`; it feeds both
`result_as_idx` and `add_blank_option` of the `FieldComboWidget`. -/
def result_as_optional_idx (type_options : String) : Bool :=
  type_options == "optional_index"

mutual
/-- A live form control.  `pushButton` also stands for the `QLabel` case of
the source's type tests: the module never stores a `QLabel` in `fields`, and
buttons are the only stored widgets excluded from values and matches.
`stack` is a `StackBuilderWidget`; its `option_list` equals the page-name
list of `pages` (both come from `stack_data["options"].split(",")`), and
`curIdx` is the index of its combo box. -/
inductive Widget where
  | checkBox (checked : Bool)
  | spinBox (spin : SpinState)
  | lineEdit (text : String)
  | pushButton (label : String) (checked : Bool)
  | optionalSpin (none_string : String) (checked : Bool) (spin : SpinState)
  | combo (c : ComboState)
  | stack (pages : Pages) (curIdx : Int)
deriving DecidableEq
/-- The ordered pages of a `StackBuilderWidget`: page name and sub-form. -/
inductive Pages where
  | nil
  | cons (pageName : String) (page : Form) (rest : Pages)
deriving DecidableEq
/-- A `FormBuilderLayout`'s `self.fields`: an insertion-ordered mapping from
field name to (`field_data_type` property, widget).  Real states have unique
names (`fields` is a Python dict keyed by name). -/
inductive Form where
  | nil
  | cons (name field_data_type : String) (w : Widget) (rest : Form)
deriving DecidableEq
end

/-- The field list as ordinary triples, for the non-recursive iterations. -/
def Form.toList : Form → List (String × String × Widget)
  | .nil => []
  | .cons n dt w rest => (n, dt, w) :: rest.toList

/-- Embedding of `type(w) == QtWidgets.QPushButton` (the source also tests `QLabel`,
which never occurs in `fields`). -/
def Widget.isButton : Widget → Bool
  | .pushButton _ _ => true
  | _ => false

def Pages.hasName : Pages → String → Bool
  | .nil, _ => false
  | .cons n _ rest, s => n == s || rest.hasName s

def Pages.names : Pages → List String
  | .nil => []
  | .cons n _ rest => n :: rest.names

/-- The stack's `self.combo_box.currentText()`: the page name at the combo
index (`""` for an invalid index, as Qt returns). -/
def stackCurrentName (pages : Pages) (curIdx : Int) : String :=
  if curIdx < 0 then ""
  else ((pages.names)[curIdx.toNat]?).getD ""

/-- Embedding of `get_widget_value` before the `field_data_type` coercion, following the
source's capability probes in order: `isChecked` (checkbox, and also
`QPushButton`), then `value` (spin boxes, `OptionalSpinWidget`,
`FieldComboWidget`, `StackBuilderWidget`), then `text` (`QLineEdit`). -/
def rawWidgetValue : Widget → Value
  | .checkBox checked => .bool checked
  | .pushButton _ checked => .bool checked
  | .spinBox spin => spin.value
  | .optionalSpin _ checked spin => OptionalSpinWidget.value checked spin
  | .combo c => FieldComboWidget.value c
  | .stack pages curIdx => .str (stackCurrentName pages curIdx)
  | .lineEdit text => .str text

/-- The trailing coercion of `get_widget_value`, keyed by the
`field_data_type` property; `none` models a raised conversion error. -/
def coerceRead (field_data_type : String) (v : Value) : Option Value :=
  if field_data_type == "sci" then (pyToRatOpt v).map .float
  else if field_data_type == "int" then (pyToIntOpt v).map .int
  else if pyStartsWith field_data_type "file_" then
    some (if v == .str "None" then .none else v)
  else some v

/-- Embedding of `FormBuilderLayout.get_widget_value`. -/
def get_widget_value (field_data_type : String) (w : Widget) : Option Value :=
  coerceRead field_data_type (rawWidgetValue w)

/-- Embedding of `StackBuilderWidget.setValue`: ignore values outside the option list
(non-string values are never members), otherwise select the first index of
the value (`list.index`). -/
def stackSetValue (pages : Pages) (curIdx : Int) (v : Value) : Widget :=
  match v with
  | .str s =>
      if pages.hasName s then .stack pages (pages.names.indexOf s : Int)
      else .stack pages curIdx
  | _ => .stack pages curIdx

/-- Embedding of `FormBuilderLayout.set_widget_value`, following the source's capability
probes in order: `isChecked` (checkbox and push button take
`setChecked(val)`, Python-truthily), then `setValue`, then `setText`;
`none` models a raised conversion error. -/
def set_widget_value (w : Widget) (v : Value) : Option Widget :=
  match w with
  | .checkBox _ => some (.checkBox (pyTruthy v))
  | .pushButton label _ => some (.pushButton label (pyTruthy v))
  | .spinBox spin => (spin.setValue v).map .spinBox
  | .optionalSpin ns checked spin =>
      (OptionalSpinWidget.setValue ns checked spin v).map
        (fun p => .optionalSpin ns p.1 p.2)
  | .combo c => (FieldComboWidget.setValue c v).map .combo
  | .stack pages curIdx => some (stackSetValue pages curIdx v)
  | .lineEdit _ => some (.lineEdit (pyStr v))

/-- Lookup in a Python dict modelled as an insertion-ordered association
list with unique keys. -/
def dictLookup (k : String) (d : List (String × Value)) : Option Value :=
  (d.find? (fun p => p.1 == k)).map (·.2)

/-- One assignment `d[k] = v` of a Python dict: overwrite in place when the
key exists, append otherwise. -/
def dictInsert (d : List (String × Value)) (k : String) (v : Value) :
    List (String × Value) :=
  if d.any (fun p => p.1 == k) then
    d.map (fun p => if p.1 == k then (k, v) else p)
  else d ++ [(k, v)]

/-- Python `data.update(new)`: assign every entry of `new` in order. -/
def dictUpdate (d new : List (String × Value)) : List (String × Value) :=
  new.foldl (fun d p => dictInsert d p.1 p.2) d

/-- The dict comprehension of `get_form_data`: an entry per stored widget
with a non-empty name that is not a label or button, in insertion order (the
names are unique, `fields` being a dict). -/
def topFormData : Form → Option (List (String × Value))
  | .nil => some []
  | .cons name dt w rest =>
      if name ≠ "" && !w.isButton then
        match get_widget_value dt w, topFormData rest with
        | some v, some d => some ((name, v) :: d)
        | _, _ => Option.none
      else topFormData rest

mutual
/-- The `stacked_data` pass of `get_form_data`: the selected-page data of
each `StackBuilderWidget` of the form, in field order; `none` models a
raised error. -/
def stackDatasF : Form → Option (List (List (String × Value)))
  | .nil => some []
  | .cons _ _ w rest =>
      match stackDatasW w, stackDatasF rest with
      | some ws, some rs => some (ws ++ rs)
      | _, _ => Option.none
/-- Embedding of `StackBuilderWidget.get_data` contributions of a single widget. -/
def stackDatasW : Widget → Option (List (List (String × Value)))
  | .stack pages curIdx =>
      match pageData pages (stackCurrentName pages curIdx) with
      | some pd => some [pd]
      | Option.none => Option.none
  | _ => some []
/-- Embedding of `self.page_layouts[self.value()].get_form_data()`: dict lookup of the
selected page (for a duplicated page name the later page wins, as in a
Python dict built by overwriting), then that page's full form data; `none`
models the `KeyError` for an absent key. -/
def pageData : Pages → String → Option (List (String × Value))
  | .nil, _ => Option.none
  | .cons pn page rest, sel =>
      if rest.hasName sel then pageData rest sel
      else if pn == sel then
        match topFormData page, stackDatasF page with
        | some top, some upds => some (upds.foldl dictUpdate top)
        | _, _ => Option.none
      else Option.none
end

/-- Embedding of `FormBuilderLayout.get_form_data`: the top-level dict comprehension,
then `data.update(stack)` for each stacked widget's selected-page data. -/
def get_form_data (f : Form) : Option (List (String × Value)) :=
  match topFormData f, stackDatasF f with
  | some top, some upds => some (upds.foldl dictUpdate top)
  | _, _ => Option.none

def formHasName (f : Form) (name : String) : Bool :=
  f.toList.any (fun p => p.1 == name)

/-- Embedding of `set_widget_value(widgets[name], val)` applied inside the stored form:
the widget registered under `name` is replaced (names are unique). -/
def updateFieldWidget (f : Form) (name : String) (v : Value) : Option Form :=
  match f with
  | .nil => some .nil
  | .cons n dt w rest =>
      if n == name then (set_widget_value w v).map (fun w2 => .cons n dt w2 rest)
      else (updateFieldWidget rest name v).map (fun r => .cons n dt w r)

/-- Embedding of `FormBuilderLayout.set_form_data`: iterate the given mapping in order,
silently skipping names that are not (top-level) field names; sub-form
fields of stacked widgets are never reached. -/
def set_form_data (f : Form) (m : List (String × Value)) : Option Form :=
  m.foldlM (fun f kv =>
    if formHasName f kv.1 then updateFieldWidget f kv.1 kv.2 else pure f) f

/-- The top-level matches of `find_field`: stored widgets with the name,
labels and buttons excluded. -/
def topFindMatches (f : Form) (name : String) : List Widget :=
  (f.toList.filter (fun p => p.1 == name && !p.2.2.isButton)).map (·.2.2)

mutual
/-- The stacked-widget pass of `find_field`, in field order. -/
def stackFinds : Form → String → List Widget
  | .nil, _ => []
  | .cons _ _ w rest, name => widgetFind w name ++ stackFinds rest name
/-- Embedding of `StackBuilderWidget.find_field`: the currently selected page's
`find_field` (selected by name through the `page_layouts` dict; an invalid
selection, impossible for a constructed widget, yields no matches). -/
def widgetFind : Widget → String → List Widget
  | .stack pages curIdx, name =>
      pageFind pages (stackCurrentName pages curIdx) name
  | _, _ => []
def pageFind : Pages → String → String → List Widget
  | .nil, _, _ => []
  | .cons pn page rest, sel, name =>
      if rest.hasName sel then pageFind rest sel name
      else if pn == sel then topFindMatches page name ++ stackFinds page name
      else []
end

/-- Embedding of `FormBuilderLayout.find_field`: the form's own matching widgets, then
for each stacked widget the matches of its currently selected page,
recursively. -/
def find_field (f : Form) (name : String) : List Widget :=
  topFindMatches f name ++ stackFinds f name

/-- The names `find_field` can see at the top level: every stored non-button
field name. -/
def topVisibleNames (f : Form) : List String :=
  (f.toList.filter (fun p => !p.2.2.isButton)).map (·.1)

mutual
/-- The field names reachable through currently selected stack pages. -/
def stackVisibleNames : Form → List String
  | .nil => []
  | .cons _ _ w rest => widgetVisibleNames w ++ stackVisibleNames rest
def widgetVisibleNames : Widget → List String
  | .stack pages curIdx => pageVisibleNames pages (stackCurrentName pages curIdx)
  | _ => []
def pageVisibleNames : Pages → String → List String
  | .nil, _ => []
  | .cons pn page rest, sel =>
      if rest.hasName sel then pageVisibleNames rest sel
      else if pn == sel then topVisibleNames page ++ stackVisibleNames page
      else []
end

/-- All field names a form can currently show to `find_field`: its own
non-button names plus, recursively, those of every selected stack page. -/
def visibleNames (f : Form) : List String :=
  topVisibleNames f ++ stackVisibleNames f

/-- First stored (`field_data_type`, widget) pair under a name —
`self.fields[name]` (unique in real states, `fields` being a dict). -/
def formLookup : Form → String → Option (String × Widget)
  | .nil, _ => Option.none
  | .cons n dt w rest, k => if n == k then some (dt, w) else formLookup rest k

/-- Whether the widget is a stacked widget whose selected page currently
contributes an entry under key `k` to `get_form_data`. -/
def widgetContribKey (w : Widget) (k : String) : Bool :=
  match w with
  | .stack pages curIdx =>
      match pageData pages (stackCurrentName pages curIdx) with
      | some pd => pd.any (fun p => p.1 == k)
      | Option.none => false
  | _ => false

/-- The per-field value constraint of the round-trip statement: the widget
stores `v` faithfully and reads it back unchanged.  Spelled out per control
class: matching value kind, spinner ranges respected (and, double boxes, the
two-decimal grid), index-mode combos receive a valid index into a
separator-free option row layout, plain combos receive an existing option
text, stacks receive an existing page name, and the `field_data_type`
coercion must not rewrite the value's kind (`sci`/`int` excluded where they
would). -/
def acceptsB (dt : String) (w : Widget) (v : Value) : Bool :=
  match w, v with
  | .checkBox _, .bool _ => !(dt == "sci" || dt == "int")
  | .spinBox (.intSpin lo hi _), .int n =>
      !(dt == "sci") && decide (lo ≤ n) && decide (n ≤ hi)
  | .spinBox (.doubleSpin lo hi _), .float q =>
      !(dt == "int") && (round2 q == q) && !(Rat.blt q lo) && !(Rat.blt hi q)
  | .lineEdit _, .str s =>
      !(dt == "sci" || dt == "int") && (!(pyStartsWith dt "file_") || s != "None")
  | .lineEdit _, .none => pyStartsWith dt "file_"
  | .optionalSpin _ _ _, .none => !(dt == "sci" || dt == "int")
  | .optionalSpin _ _ (.intSpin lo hi _), .int n =>
      !(dt == "sci") && decide (lo ≤ n) && decide (n ≤ hi)
  | .optionalSpin _ _ (.doubleSpin lo hi _), .float q =>
      !(dt == "int") && (round2 q == q) && !(Rat.blt q lo) && !(Rat.blt hi q)
  | .combo c, .str s =>
      c.result_as_idx == false && c.items.any (fun it => it.text == s) &&
        !(dt == "sci" || dt == "int") && (!(pyStartsWith dt "file_") || s != "None")
  | .combo c, .int j =>
      c.result_as_idx == true &&
        c.items == ((if c.add_blank_option then [ComboItem.opt ""] else []) ++
          c.options_list.map ComboItem.opt) &&
        decide c.options_list.Nodup &&
        (!c.add_blank_option || !(c.options_list.contains "")) &&
        decide (0 ≤ j) && decide (j < (c.options_list.length : Int)) &&
        !(dt == "sci")
  | .stack pages _, .str s =>
      pages.hasName s && !(dt == "sci" || dt == "int") &&
        (!(pyStartsWith dt "file_") || s != "None")
  | _, _ => false

end SleapForm

namespace SleapTracks

/-- One step of the per-landmark walk, as the amended claim words it: a
frame in which the track has an instance (the first such instance is used)
appends the landmark's `(x, y)` when the landmark is visible, else the last
prior sample when one exists, else nothing; a frame in which the track has
no instance appends nothing. -/
def amendedStep (track : Option String) (node : String)
    (trail : List (ℚ × ℚ)) (frame : LabeledFrame) : List (ℚ × ℚ) :=
  match (frame.instances.filter (fun i => i.track == track)).head? with
  | none => trail
  | some inst =>
      let vis : Option (ℚ × ℚ) :=
        match inst.lookupNode node with
        | some p => if p.visible then some (p.x, p.y) else none
        | none => none
      match vis with
      | some pt => trail ++ [pt]
      | none =>
          match trail.getLast? with
          | some last => trail ++ [last]
          | none => trail

/-- The full per-landmark trail of the amended claim: walk the windowed
frames in order, stepping as in `amendedStep`. -/
def amendedNodeTrail (track : Option String) (node : String)
    (frames : List LabeledFrame) : List (ℚ × ℚ) :=
  frames.foldl (amendedStep track node) []

/-- The per-landmark trail as claim C2 words it: in every frame, append the
visible landmark position when the track has an instance there and the
landmark is visible, and *otherwise* (also in frames where the track has no
instance at all) carry the last prior sample forward when one exists. -/
def claimedNodeTrail (track : Option String) (node : String)
    (frames : List LabeledFrame) : List (ℚ × ℚ) :=
  frames.foldl (fun trail frame =>
    let vis : Option (ℚ × ℚ) :=
      match (frame.instances.filter (fun i => i.track == track)).head? with
      | none => none
      | some inst =>
          match inst.lookupNode node with
          | some p => if p.visible then some (p.x, p.y) else none
          | none => none
    match vis with
    | some pt => trail ++ [pt]
    | none =>
        match trail.getLast? with
        | some last => trail ++ [last]
        | none => trail) []

/-- Line-joining of the track-list spans (`<br />`-separated rich text). -/
def joinSpans : List String → String
  | [] => ""
  | [s] => s
  | s :: rest => s ++ "<br />" ++ joinSpans rest

/-- The spans of the shown tracks, with 0-based positions starting at `i`. -/
def spansFrom (cm : String → Nat × Nat × Nat) (i : Nat) :
    List String → List String
  | [] => []
  | name :: rest => track_span cm i name :: spansFrom cm (i + 1) rest

/-- A one-instance labeled frame used by the concrete claim inputs. -/
def mkInst (tr : String) (x y : ℚ) (vis : Bool) : InstanceData :=
  { track := some tr, points := [("a", { x := x, y := y, visible := vis })] }

def mkLf (k : Nat) (insts : List InstanceData) : LabeledFrame :=
  { video := "v", frame_idx := k, instances := insts }

/-- Claim C1's input: one landmark, track `t` visible at `(k, k)` in frames
1–4. -/
def labelsC1 : Labels :=
  { nodes := ["a"],
    labeled_frames := [mkLf 1 [mkInst "t" 1 1 true], mkLf 2 [mkInst "t" 2 2 true],
                       mkLf 3 [mkInst "t" 3 3 true], mkLf 4 [mkInst "t" 4 4 true]] }

/-- Claim C2's input: landmark visible at `(5,5)` in frame 1, present but
invisible in frames 2–3, visible at `(9,9)` in frame 4. -/
def labelsC2 : Labels :=
  { nodes := ["a"],
    labeled_frames := [mkLf 1 [mkInst "t" 5 5 true], mkLf 2 [mkInst "t" 0 0 false],
                       mkLf 3 [mkInst "t" 0 0 false], mkLf 4 [mkInst "t" 9 9 true]] }

/-- Two labeled frames (indices 0 and 1) with no instances, for the
`trail_length = 0` window. -/
def labelsC3 : Labels :=
  { nodes := [], labeled_frames := [mkLf 0 [], mkLf 1 []] }

/-- Track `t` present in both windowed frames, for the duplicate-rendering
input. -/
def labelsC7 : Labels :=
  { nodes := ["a"],
    labeled_frames := [mkLf 1 [mkInst "t" 1 1 true], mkLf 2 [mkInst "t" 2 2 true]] }

end SleapTracks

namespace SleapForm

/-- A one-field sub-form page: field `a`, an int spinner holding 1. -/
def pageA : Form := .cons "a" "int" (.spinBox (.intSpin 0 99 1)) .nil

/-- A form whose only top-level field is a stacked widget with the single
page `p` (the `pageA` sub-form), page `p` selected. -/
def formStacked : Form :=
  .cons "stk" "stacked" (.stack (.cons "p" pageA .nil) 0) .nil

/-- A freshly constructed optional-index `FieldComboWidget` (the state Qt
leaves after `__init__`: no rows, no current row). -/
def comboFresh : ComboState :=
  { result_as_idx := true, add_blank_option := true, options_list := [],
    items := [], currentIndex := -1 }

/-- An optional-index combo holding options `x`, `y` with the blank row
selected, as `set_options` leaves it. -/
def comboXY : ComboState :=
  { result_as_idx := true, add_blank_option := true, options_list := ["x", "y"],
    items := [.opt "", .opt "x", .opt "y"], currentIndex := 0 }

/-- A small form exercising one widget of every value-carrying kind. -/
def formMixed : Form :=
  .cons "flag" "bool" (.checkBox false)
    (.cons "count" "int" (.spinBox (.intSpin 0 99 7))
      (.cons "ratio" "double" (.spinBox (.doubleSpin 0 (mkRat 9999 100) 0))
        (.cons "name" "string" (.lineEdit "old")
          (.cons "crop" "optional_int" (.optionalSpin "none" false (.intSpin 0 99 3))
            (.cons "choice" "list" (.combo comboXY)
              (.cons "stk" "stacked" (.stack (.cons "p" pageA .nil) 0) .nil))))))

/-- A stacked form with two pages: page `p` holds field `a`, page `q` holds
field `b`; page `q` is selected. -/
def formTwoPages : Form :=
  .cons "stk" "stacked"
    (.stack (.cons "p" pageA
      (.cons "q" (.cons "b" "int" (.spinBox (.intSpin 0 99 2)) .nil) .nil)) 1)
    .nil

/-- The mapping written into `formMixed` by the round-trip witness. -/
def mixedData : List (String × Value) :=
  [("flag", .bool true), ("count", .int 42), ("ratio", .float (mkRat 25 100)),
   ("name", .str "new"), ("crop", .none), ("choice", .int 1),
   ("stk", .str "p")]

/-- Embedding of `formMixed` after `set_form_data` has written `mixedData` into it. -/
def formMixedSet : Form :=
  .cons "flag" "bool" (.checkBox true)
    (.cons "count" "int" (.spinBox (.intSpin 0 99 42))
      (.cons "ratio" "double" (.spinBox (.doubleSpin 0 (mkRat 9999 100) (mkRat 25 100)))
        (.cons "name" "string" (.lineEdit "new")
          (.cons "crop" "optional_int" (.optionalSpin "none" true (.intSpin 0 99 3))
            (.cons "choice" "list" (.combo { comboXY with currentIndex := 2 })
              (.cons "stk" "stacked" (.stack (.cons "p" pageA .nil) 0) .nil))))))

/-- The mapping `get_form_data` reads back from `formMixedSet`. -/
def mixedOut : List (String × Value) :=
  [("flag", .bool true), ("count", .int 42), ("ratio", .float (mkRat 25 100)),
   ("name", .str "new"), ("crop", .none), ("choice", .int 1),
   ("stk", .str "p"), ("a", .int 1)]

end SleapForm

/-! ## Theorems -/

namespace SleapTracks

/-- A left fold that appends a block per element is the flattened map. -/
theorem foldl_append_flatten {α β : Type} (g : α → List β) :
    ∀ (l : List α) (init : List β),
      l.foldl (fun acc x => acc ++ g x) init = init ++ (l.map g).flatten
  | [], init => by simp
  | x :: xs, init => by
      rw [List.foldl_cons, foldl_append_flatten g xs]
      simp

/-- Embedding of `add_to_scene` in closed form: per window track, per node trail, the
two polygon commands of `trailCmds`. -/
theorem add_to_scene_flatten (labels : Labels) (tl : Int) (video : String)
    (fidx : Nat) :
    add_to_scene labels tl true video fidx =
      ((get_tracks_in_frame labels tl video fidx true).map (fun track =>
        ((get_track_trails labels (get_frame_selection labels tl video fidx)
            track).map (trailCmds track)).flatten)).flatten := by
  unfold add_to_scene
  have hinner : ∀ (track : Option String) (cmds : List DrawCmd)
      (trails : List (List (ℚ × ℚ))),
      trails.foldl (fun cmds trail =>
          cmds ++ [DrawCmd.polygon (trail.take (trail.length / 2)) track 1]
               ++ [DrawCmd.polygon (trail.drop (trail.length / 2)) track
                    (mkRat 1 2)]) cmds
        = cmds ++ (trails.map (trailCmds track)).flatten := by
    intro track cmds trails
    have hf : (fun (cmds : List DrawCmd) trail =>
        cmds ++ [DrawCmd.polygon (trail.take (trail.length / 2)) track 1]
             ++ [DrawCmd.polygon (trail.drop (trail.length / 2)) track
                  (mkRat 1 2)])
        = fun cmds trail => cmds ++ trailCmds track trail := by
      funext cmds trail
      simp [trailCmds]
    rw [hf, foldl_append_flatten]
  have hg : (fun (cmds : List DrawCmd) track =>
      (get_track_trails labels (get_frame_selection labels tl video fidx)
          track).foldl (fun cmds trail =>
        cmds ++ [DrawCmd.polygon (trail.take (trail.length / 2)) track 1]
             ++ [DrawCmd.polygon (trail.drop (trail.length / 2)) track
                  (mkRat 1 2)]) cmds)
      = fun cmds track => cmds ++
          ((get_track_trails labels (get_frame_selection labels tl video fidx)
              track).map (trailCmds track)).flatten := by
    funext cmds track
    exact hinner track cmds _
  simp only [Bool.not_true, if_false]
  rw [hg, foldl_append_flatten]
  simp

end SleapTracks

namespace SleapTracks

/-- C1 counterexample: on the trail `[(1,1),(2,2),(3,3),(4,4)]` the code
issues the *earlier* half `[(1,1),(2,2)]` with alpha 1.0 first and the later
half `[(3,3),(4,4)]` with alpha 0.5 second (once per window occurrence of
the track); the later half is never issued with alpha 1.0, contradicting the
claimed order and alphas. -/
theorem c1_counterexample :
    add_to_scene labelsC1 4 true "v" 4 =
      [DrawCmd.polygon [(1,1),(2,2)] (some "t") 1,
       DrawCmd.polygon [(3,3),(4,4)] (some "t") (mkRat 1 2),
       DrawCmd.polygon [(1,1),(2,2)] (some "t") 1,
       DrawCmd.polygon [(3,3),(4,4)] (some "t") (mkRat 1 2),
       DrawCmd.polygon [(1,1),(2,2)] (some "t") 1,
       DrawCmd.polygon [(3,3),(4,4)] (some "t") (mkRat 1 2),
       DrawCmd.polygon [(1,1),(2,2)] (some "t") 1,
       DrawCmd.polygon [(3,3),(4,4)] (some "t") (mkRat 1 2)] ∧
    DrawCmd.polygon [(3,3),(4,4)] (some "t") 1 ∉ add_to_scene labelsC1 4 true "v" 4 ∧
    (add_to_scene labelsC1 4 true "v" 4).head? =
      some (DrawCmd.polygon [(1,1),(2,2)] (some "t") 1) := by decide

/-- C1 (amended): for every rendered trail, with `half = len(trail) // 2`,
the *earlier* half `trail[:half]` is issued to the scene first with alpha
1.0 and the *later* half `trail[half:]` second with alpha 0.5, both with the
track's colour from the colour manager. -/
theorem c1_amended (labels : Labels) (tl : Int) (video : String) (fidx : Nat) :
    add_to_scene labels tl true video fidx =
      ((get_tracks_in_frame labels tl video fidx true).map (fun track =>
        ((get_track_trails labels (get_frame_selection labels tl video fidx)
            track).map (fun trail =>
          [DrawCmd.polygon (trail.take (trail.length / 2)) track 1,
           DrawCmd.polygon (trail.drop (trail.length / 2)) track
             (mkRat 1 2)])).flatten)).flatten := by
  exact add_to_scene_flatten labels tl video fidx

/-- C3: with `trail_length = 0` the window of `get_frame_selection` is the
*entire* history up to the frame (Python `l[-0:]` is `l`), not the empty
window the claim and the attribute documentation ("the maximum number of
frames to include in trail") describe. -/
theorem c3_zero_trail_length_window :
    get_frame_selection labelsC3 0 "v" 1 = [mkLf 0 [], mkLf 1 []] ∧
    get_frame_selection labelsC3 0 "v" 1 ≠ [] := by decide

end SleapTracks

namespace SleapTracks

/-- Mapping over a list zipped with a function of itself. -/
theorem zip_map_map {α β γ : Type} (g : α → β) (h : α × β → γ) :
    ∀ l : List α, (l.zip (l.map g)).map h = l.map (fun a => h (a, g a))
  | [] => rfl
  | a :: l => by simp [zip_map_map g h l]

/-- One `trail_step` on per-node states is the per-node `amendedStep`. -/
theorem trail_step_map (nodes : List String) (track : Option String)
    (g : String → List (ℚ × ℚ)) (frame : LabeledFrame) :
    trail_step nodes track (nodes.map g) frame
      = nodes.map (fun node => amendedStep track node (g node) frame) := by
  unfold trail_step amendedStep
  cases h : (frame.instances.filter (fun i => i.track == track)).head? with
  | none => rfl
  | some inst => exact zip_map_map g _ nodes

/-- The frame fold on per-node states is the per-node fold. -/
theorem trails_foldl (nodes : List String) (track : Option String) :
    ∀ (frames : List LabeledFrame) (g : String → List (ℚ × ℚ)),
      frames.foldl (trail_step nodes track) (nodes.map g)
        = nodes.map (fun node => frames.foldl (amendedStep track node) (g node))
  | [], g => rfl
  | f :: fs, g => by
      rw [List.foldl_cons, trail_step_map nodes track g f,
        trails_foldl nodes track fs (fun node => amendedStep track node (g node) f)]
      simp only [List.foldl_cons]

/-- C2 (amended): for every track and every landmark, the trail built by
`get_track_trails` walks the windowed frames in order and appends the
visible landmark position when the track has an instance in the frame,
carries the last prior sample forward when the track has an instance there
but the landmark is invisible or missing, and appends *nothing* in a frame
in which the track has no instance; the claim's example (instances present
but invisible in frames 2–3) evaluates to `[(5,5), (5,5), (5,5), (9,9)]`. -/
theorem c2_amended :
    (∀ (labels : Labels) (sel : List LabeledFrame) (track : Option String),
      get_track_trails labels sel track
        = labels.nodes.map (fun node => amendedNodeTrail track node sel)) ∧
    get_track_trails labelsC2 (get_frame_selection labelsC2 4 "v" 4)
        (some "t") = [[(5,5),(5,5),(5,5),(9,9)]] := by
  constructor
  · intro labels sel track
    unfold get_track_trails amendedNodeTrail
    have hrep : List.replicate labels.nodes.length ([] : List (ℚ × ℚ))
        = labels.nodes.map (fun _ => []) := by
      induction labels.nodes with
      | nil => rfl
      | cons a l ih => simp only [List.length_cons, List.replicate_succ,
          List.map_cons, ih]
    rw [hrep, trails_foldl]
  · decide

/-- C2 counterexample: in a frame where the track has *no* instance, the
code appends nothing, while the claim's rule ("otherwise, if the trail
already holds a prior sample, the last known sample is appended") demands a
carried-forward sample; on a trail `[(5,5)]` followed by an instance-free
frame the code yields `[(5,5)]`, the claimed rule `[(5,5),(5,5)]`. -/
theorem c2_counterexample :
    get_track_trails labelsC2 [mkLf 1 [mkInst "t" 5 5 true], mkLf 2 []]
        (some "t") = [[(5,5)]] ∧
    labelsC2.nodes.map (fun node => claimedNodeTrail (some "t") node
        [mkLf 1 [mkInst "t" 5 5 true], mkLf 2 []]) = [[(5,5),(5,5)]] ∧
    ([[(5,5)]] : List (List (ℚ × ℚ))) ≠ [[(5,5),(5,5)]] := by decide

end SleapTracks

namespace SleapTracks

/-- C7 counterexample: track `t` has an instance in both windowed frames, so
`tracks_in_frame` lists it twice and its two trail commands are issued to
the scene twice, not once. -/
theorem c7_counterexample :
    add_to_scene labelsC7 2 true "v" 2 =
      [DrawCmd.polygon [(1,1)] (some "t") 1,
       DrawCmd.polygon [(2,2)] (some "t") (mkRat 1 2),
       DrawCmd.polygon [(1,1)] (some "t") 1,
       DrawCmd.polygon [(2,2)] (some "t") (mkRat 1 2)] ∧
    (get_tracks_in_frame labelsC7 2 "v" 2 true).count (some "t") = 2 ∧
    add_to_scene labelsC7 2 true "v" 2 ≠
      [DrawCmd.polygon [(1,1)] (some "t") 1,
       DrawCmd.polygon [(2,2)] (some "t") (mkRat 1 2)] := by decide

theorem mem_insertByIdx (a x : LabeledFrame) :
    ∀ l : List LabeledFrame, x ∈ insertByIdx a l ↔ x = a ∨ x ∈ l
  | [] => by simp [insertByIdx]
  | b :: bs => by
      by_cases h : a.frame_idx ≤ b.frame_idx
      · simp [insertByIdx, h]
      · simp only [insertByIdx, if_neg h, List.mem_cons, mem_insertByIdx a x bs]
        tauto

theorem mem_pySortByIdx (x : LabeledFrame) :
    ∀ l : List LabeledFrame, x ∈ pySortByIdx l ↔ x ∈ l := by
  intro l
  unfold pySortByIdx
  induction l with
  | nil => simp
  | cons a l ih => simp [List.foldr_cons, mem_insertByIdx, ih]

theorem pairwise_insertByIdx (a : LabeledFrame) :
    ∀ l : List LabeledFrame,
      List.Pairwise (fun x y => x.frame_idx ≤ y.frame_idx) l →
      List.Pairwise (fun x y => x.frame_idx ≤ y.frame_idx) (insertByIdx a l)
  | [], _ => by simp [insertByIdx]
  | b :: bs, h => by
      rcases List.pairwise_cons.mp h with ⟨hb, hbs⟩
      by_cases hab : a.frame_idx ≤ b.frame_idx
      · simp only [insertByIdx, if_pos hab]
        refine List.pairwise_cons.mpr ⟨?_, h⟩
        intro y hy
        rcases List.mem_cons.mp hy with rfl | hy
        · exact hab
        · exact le_trans hab (hb y hy)
      · simp only [insertByIdx, if_neg hab]
        refine List.pairwise_cons.mpr ⟨?_, pairwise_insertByIdx a bs hbs⟩
        intro y hy
        rcases (mem_insertByIdx a y bs).mp hy with rfl | hy
        · omega
        · exact hb y hy

theorem pairwise_pySortByIdx :
    ∀ l : List LabeledFrame,
      List.Pairwise (fun x y => x.frame_idx ≤ y.frame_idx) (pySortByIdx l)
  | [] => by simp [pySortByIdx]
  | a :: l => by
      have := pairwise_pySortByIdx l
      simpa [pySortByIdx] using pairwise_insertByIdx a (pySortByIdx l) this

/-- In an ascending list, an element whose key every element reaches only at
the element itself is the last element. -/
theorem getLast?_of_strict_max :
    ∀ (l : List LabeledFrame) (x : LabeledFrame),
      List.Pairwise (fun u v => u.frame_idx ≤ v.frame_idx) l →
      x ∈ l →
      (∀ y ∈ l, y.frame_idx ≤ x.frame_idx) →
      (∀ y ∈ l, y.frame_idx = x.frame_idx → y = x) →
      l.getLast? = some x
  | [], x, _, hx, _, _ => by simp at hx
  | [a], x, _, hx, _, _ => by
      simp only [List.mem_singleton] at hx
      simp [hx]
  | a :: b :: t, x, hsort, hx, hle, huniq => by
      have hsort' := (List.pairwise_cons.mp hsort).2
      have hxmem : x ∈ b :: t := by
        rcases List.mem_cons.mp hx with hax | hx'
        · have h1 : a.frame_idx ≤ b.frame_idx :=
            (List.pairwise_cons.mp hsort).1 b (by simp)
          have h2 : b.frame_idx ≤ x.frame_idx := hle b (by simp)
          have h3 : x.frame_idx ≤ b.frame_idx := by rw [hax]; exact h1
          have hbx : b = x := huniq b (by simp) (by omega)
          simp [hbx]
        · exact hx'
      have := getLast?_of_strict_max (b :: t) x hsort' hxmem
        (fun y hy => hle y (List.mem_cons_of_mem a hy))
        (fun y hy h => huniq y (List.mem_cons_of_mem a hy) h)
      simpa [List.getLast?_cons_cons] using this

/-- For a non-negative trail length, the sliced window keeps the last
element. -/
theorem getLast?_mem_pySliceFrom (tl : Int) (htl : 0 ≤ tl)
    (l : List LabeledFrame) (x : LabeledFrame) (hlast : l.getLast? = some x) :
    x ∈ pySliceFrom (-tl) l := by
  have hne : l ≠ [] := by
    intro h
    rw [h] at hlast
    simp at hlast
  have hlen : 0 < l.length := List.length_pos.mpr hne
  have hdrop : ∀ k, k < l.length → x ∈ l.drop k := by
    intro k hk
    have h1 : l.getLast? = l[l.length - 1]? := by
      rw [List.getLast?_eq_getElem?]
    have h2 : (l.drop k).length = l.length - k := List.length_drop k l
    have h3 : l.length - 1 - k < (l.drop k).length := by omega
    have h4 : (l.drop k)[l.length - 1 - k] = l[k + (l.length - 1 - k)] := by
      rw [List.getElem_drop]
    have h5 : k + (l.length - 1 - k) = l.length - 1 := by omega
    have hidx : l.length - 1 < l.length := by omega
    have h6 : l.get ⟨l.length - 1, hidx⟩ = x := by
      have := hlast
      rw [h1] at this
      rw [List.getElem?_eq_getElem (by omega)] at this
      exact Option.some.inj this
    have : (l.drop k).get ⟨l.length - 1 - k, h3⟩ = x := by
      show (l.drop k)[l.length - 1 - k] = x
      rw [h4]
      simp only [h5]
      exact h6
    rw [← this]
    exact List.getElem_mem h3
  unfold pySliceFrom
  by_cases h : -tl < 0
  · simp only [if_pos h, Int.neg_neg]
    have hk : l.length - tl.toNat < l.length ∨ l.length - tl.toNat = 0 := by omega
    rcases hk with hk | hk
    · exact hdrop _ hk
    · rw [hk]
      exact hdrop 0 hlen
  · have : tl = 0 := by omega
    subst this
    simp only [Int.neg_zero, if_neg h]
    simpa using hdrop 0 hlen

end SleapTracks

namespace SleapTracks

theorem get_tracks_in_frame_trails (labels : Labels) (tl : Int)
    (video : String) (fidx : Nat) :
    get_tracks_in_frame labels tl video fidx true =
      ((get_frame_selection labels tl video fidx).map
        (fun lf => lf.instances.map (fun i => i.track))).flatten := rfl

theorem count_tracks (t : Option String) :
    ∀ l : List InstanceData,
      (l.map (fun i => i.track)).count t
        = (l.filter (fun i => i.track == t)).length
  | [] => rfl
  | i :: l => by
      by_cases h : i.track == t
      · simp [List.count_cons, List.filter_cons, h, count_tracks t l]
      · simp [List.count_cons, List.filter_cons, h, count_tracks t l]

theorem count_flatten_sum (t : Option String) :
    ∀ L : List (List (Option String)),
      L.flatten.count t = (L.map (fun l => l.count t)).sum
  | [] => rfl
  | l :: L => by simp [List.count_append, count_flatten_sum t L]

/-- C7 (amended): the tracks for which `add_to_scene` draws trails are the
entries of `get_tracks_in_frame(include_trails=True)`, one entry per
*instance occurrence* in the trail window — a track with instances in
several windowed frames (or several instances in one frame) is drawn that
many times, not once; as a *set* they are exactly the tracks with an
instance somewhere in the window, which (for a store with at most one
labeled frame per video and index, and a non-negative trail length)
includes every track of the current frame. -/
theorem c7_amended (labels : Labels) (tl : Int) (video : String) (fidx : Nat)
    (htl : 0 ≤ tl)
    (huniq : ∀ lf1 ∈ labels.labeled_frames, ∀ lf2 ∈ labels.labeled_frames,
      lf1.video = video → lf2.video = video →
      lf1.frame_idx = lf2.frame_idx → lf1 = lf2) :
    (∀ t, (get_tracks_in_frame labels tl video fidx true).count t =
      ((get_frame_selection labels tl video fidx).map
        (fun lf => (lf.instances.filter (fun i => i.track == t)).length)).sum) ∧
    (∀ t, t ∈ get_tracks_in_frame labels tl video fidx true ↔
      ∃ lf ∈ get_frame_selection labels tl video fidx,
        ∃ inst ∈ lf.instances, inst.track = t) ∧
    (∀ lf ∈ labels.labeled_frames, lf.video = video → lf.frame_idx = fidx →
      ∀ inst ∈ lf.instances,
        inst.track ∈ get_tracks_in_frame labels tl video fidx true) := by
  have hmem : ∀ t, t ∈ get_tracks_in_frame labels tl video fidx true ↔
      ∃ lf ∈ get_frame_selection labels tl video fidx,
        ∃ inst ∈ lf.instances, inst.track = t := by
    intro t
    rw [get_tracks_in_frame_trails]
    simp only [List.mem_flatten, List.mem_map]
    constructor
    · rintro ⟨li, ⟨lf, hlf, rfl⟩, ht⟩
      rcases List.mem_map.mp ht with ⟨inst, hinst, rfl⟩
      exact ⟨lf, hlf, inst, hinst, rfl⟩
    · rintro ⟨lf, hlf, inst, hinst, rfl⟩
      exact ⟨lf.instances.map (fun i => i.track), ⟨lf, hlf, rfl⟩,
        List.mem_map_of_mem _ hinst⟩
  refine ⟨?_, hmem, ?_⟩
  · intro t
    rw [get_tracks_in_frame_trails, count_flatten_sum, List.map_map]
    congr 1
    apply List.map_congr_left
    intro lf _
    exact count_tracks t lf.instances
  · intro lf hlf hvid hidx inst hinst
    have hfilter : lf ∈ labels.findUpTo video fidx := by
      unfold Labels.findUpTo
      rw [List.mem_filter]
      refine ⟨hlf, ?_⟩
      simp [hvid, hidx]
    set X := pySortByIdx (labels.findUpTo video fidx) with hX
    have hmemX : lf ∈ X := (mem_pySortByIdx lf _).mpr hfilter
    have hsort : List.Pairwise (fun u v => u.frame_idx ≤ v.frame_idx) X :=
      pairwise_pySortByIdx _
    have hboundX : ∀ y ∈ X, y.frame_idx ≤ lf.frame_idx := by
      intro y hy
      have hy' : y ∈ labels.findUpTo video fidx := (mem_pySortByIdx y _).mp hy
      unfold Labels.findUpTo at hy'
      rw [List.mem_filter] at hy'
      have := hy'.2
      simp only [Bool.and_eq_true, beq_iff_eq, decide_eq_true_eq] at this
      omega
    have huniqX : ∀ y ∈ X, y.frame_idx = lf.frame_idx → y = lf := by
      intro y hy hfi
      have hy' : y ∈ labels.findUpTo video fidx := (mem_pySortByIdx y _).mp hy
      unfold Labels.findUpTo at hy'
      rw [List.mem_filter] at hy'
      have hcond := hy'.2
      simp only [Bool.and_eq_true, beq_iff_eq, decide_eq_true_eq] at hcond
      exact huniq y hy'.1 lf hlf hcond.1 hvid (by omega)
    have hlast : X.getLast? = some lf :=
      getLast?_of_strict_max X lf hsort hmemX hboundX huniqX
    have hwin : lf ∈ get_frame_selection labels tl video fidx := by
      unfold get_frame_selection
      exact getLast?_mem_pySliceFrom tl htl X lf hlast
    exact (hmem inst.track).mpr ⟨lf, hwin, inst, hinst, rfl⟩

end SleapTracks

namespace SleapTracks

theorem eq_empty_of_length_zero (s : String) (h : s.length = 0) : s = "" := by
  cases s with
  | mk data =>
    simp [String.length] at h
    simp [h]

theorem append_ne_empty_left (h s : String) (hh : h ≠ "") : h ++ s ≠ "" := by
  intro heq
  have := congrArg String.length heq
  rw [String.length_append] at this
  have h0 : ("" : String).length = 0 := rfl
  rw [h0] at this
  exact hh (eq_empty_of_length_zero h (by omega))

theorem track_span_ne_empty (cm : String → Nat × Nat × Nat) (i : Nat)
    (name : String) : track_span cm i name ≠ "" := by
  unfold track_span
  intro h
  have hlen := congrArg String.length h
  simp only [String.length_append] at hlen
  have h19 : ("<span style=\x27color:" : String).length = 19 := rfl
  rw [h19] at hlen
  simp at hlen

end SleapTracks

namespace SleapTracks

theorem track_list_foldl (cm : String → Nat × Nat × Nat) :
    ∀ (l : List String) (h : String) (i : Nat), h ≠ "" →
      (l.foldl (fun (acc : String × Nat) name =>
        ((if acc.1 ≠ "" then acc.1 ++ "<br />" else acc.1) ++
          track_span cm acc.2 name, acc.2 + 1)) (h, i)).1
      = joinSpans (h :: spansFrom cm i l)
  | [], h, i, hne => by simp [joinSpans, spansFrom]
  | name :: rest, h, i, hne => by
      rw [List.foldl_cons]
      simp only [if_pos hne]
      rw [track_list_foldl cm rest (h ++ "<br />" ++ track_span cm i name)
        (i + 1) (append_ne_empty_left _ _ (append_ne_empty_left _ _ hne))]
      show joinSpans ((h ++ "<br />" ++ track_span cm i name) ::
          spansFrom cm (i + 1) rest)
        = joinSpans (h :: track_span cm i name :: spansFrom cm (i + 1) rest)
      cases hs : spansFrom cm (i + 1) rest with
      | nil => simp [joinSpans, String.append_assoc]
      | cons s ss => simp [joinSpans, String.append_assoc]

theorem spansFrom_length (cm : String → Nat × Nat × Nat) :
    ∀ (l : List String) (i : Nat), (spansFrom cm i l).length = l.length
  | [], _ => rfl
  | _ :: rest, i => by simp [spansFrom, spansFrom_length cm rest (i + 1)]

theorem spansFrom_getElem? (cm : String → Nat × Nat × Nat) :
    ∀ (l : List String) (i k : Nat),
      (spansFrom cm i l)[k]? = (l[k]?).map (fun name => track_span cm (i + k) name)
  | [], i, k => by simp [spansFrom]
  | name :: rest, i, 0 => by simp [spansFrom]
  | name :: rest, i, k + 1 => by
      simp only [spansFrom, List.getElem?_cons_succ]
      rw [spansFrom_getElem? cm rest (i + 1) k]
      have : i + 1 + k = i + (k + 1) := by omega
      rw [this]

/-- C9: `TrackListOverlay.add_to_scene` renders at most 9 labels — exactly
the first `min(9, len(tracks))` tracks of the store ordering, in order,
joined as `<br />`-separated spans; the span of the track at 0-based
position `k` appends the suffix ` (k+1)` exactly when `str(k+1)` differs
from the track's name (see `track_span`). -/
theorem c9_track_list (cm : String → Nat × Nat × Nat) (tracks : List String) :
    track_list_html cm tracks
      = joinSpans (spansFrom cm 0 (tracks.take (min 9 tracks.length))) ∧
    (spansFrom cm 0 (tracks.take (min 9 tracks.length))).length
      = min 9 tracks.length ∧
    (∀ k, k < min 9 tracks.length →
      (spansFrom cm 0 (tracks.take (min 9 tracks.length)))[k]?
        = (tracks[k]?).map (fun name => track_span cm k name)) ∧
    min 9 tracks.length ≤ 9 := by
  refine ⟨?_, ?_, ?_, Nat.min_le_left 9 tracks.length⟩
  · show (List.foldl (fun (acc : String × Nat) name =>
        ((if acc.1 ≠ "" then acc.1 ++ "<br />" else acc.1) ++
          track_span cm acc.2 name, acc.2 + 1)) ("", 0)
        (tracks.take (min 9 tracks.length))).1
      = joinSpans (spansFrom cm 0 (tracks.take (min 9 tracks.length)))
    cases htake : tracks.take (min 9 tracks.length) with
    | nil => simp [joinSpans, spansFrom]
    | cons name rest =>
        rw [List.foldl_cons]
        have hfirst : ((if ("" : String) ≠ "" then "" ++ "<br />" else "") ++
            track_span cm 0 name, 0 + 1)
            = (track_span cm 0 name, 1) := by
          simp
        rw [hfirst,
          track_list_foldl cm rest (track_span cm 0 name) 1
            (track_span_ne_empty cm 0 name)]
        rfl
  · rw [spansFrom_length, List.length_take]
    omega
  · intro k hk
    rw [spansFrom_getElem? cm _ 0 k, List.getElem?_take]
    simp only [if_pos hk]
    have h0 : (0 : Nat) + k = k := by omega
    rw [h0]

end SleapTracks

namespace SleapTracks

/-- C7 witness: the amended statement instantiated on the two-frame store
`labelsC7`, hypotheses discharged by evaluation. -/
theorem c7_amended_witness :
    ((0 : Int) ≤ 2 ∧
      (∀ lf1 ∈ labelsC7.labeled_frames, ∀ lf2 ∈ labelsC7.labeled_frames,
        lf1.video = "v" → lf2.video = "v" →
        lf1.frame_idx = lf2.frame_idx → lf1 = lf2)) ∧
    ((∀ t, (get_tracks_in_frame labelsC7 2 "v" 2 true).count t =
      ((get_frame_selection labelsC7 2 "v" 2).map
        (fun lf => (lf.instances.filter (fun i => i.track == t)).length)).sum) ∧
    (∀ t, t ∈ get_tracks_in_frame labelsC7 2 "v" 2 true ↔
      ∃ lf ∈ get_frame_selection labelsC7 2 "v" 2,
        ∃ inst ∈ lf.instances, inst.track = t) ∧
    (∀ lf ∈ labelsC7.labeled_frames, lf.video = "v" → lf.frame_idx = 2 →
      ∀ inst ∈ lf.instances,
        inst.track ∈ get_tracks_in_frame labelsC7 2 "v" 2 true)) :=
  ⟨⟨by decide, by decide⟩, c7_amended labelsC7 2 "v" 2 (by decide) (by decide)⟩

/-- C9 witness: the statement instantiated on a concrete colour manager and
track list. -/
theorem c9_track_list_witness :
    track_list_html (fun _ => (255, 0, 0)) ["1", "zebra"]
      = joinSpans (spansFrom (fun _ => (255, 0, 0)) 0
          (["1", "zebra"].take (min 9 (["1", "zebra"] : List String).length))) ∧
    (spansFrom (fun _ => (255, 0, 0)) 0
        (["1", "zebra"].take (min 9 (["1", "zebra"] : List String).length))).length
      = min 9 (["1", "zebra"] : List String).length ∧
    (∀ k, k < min 9 (["1", "zebra"] : List String).length →
      (spansFrom (fun _ => (255, 0, 0)) 0
        (["1", "zebra"].take (min 9 (["1", "zebra"] : List String).length)))[k]?
        = ((["1", "zebra"] : List String)[k]?).map
            (fun name => track_span (fun _ => (255, 0, 0)) k name)) ∧
    min 9 (["1", "zebra"] : List String).length ≤ 9 :=
  c9_track_list (fun _ => (255, 0, 0)) ["1", "zebra"]

end SleapTracks

namespace SleapForm

/-- C5: evaluation at the failing input.  `build_form` passes
`spin_type_of "optional_double" = "double"`, but the constructor's spinner
test `type is "double"` is an identity comparison that is False for the
fresh split-produced string, so the widget gets the integer `QSpinBox`:
`setValue(2.5)` reads back as `2`, not `2.5`.  The `None` round trip and the
`optional_int`/`auto_int` integer round trip behave as claimed. -/
theorem c5_optional_double_eval :
    spin_type_of "optional_double" = "double" ∧
    OptionalSpinWidget.initSpin (spin_type_of "optional_double")
      = SpinState.intSpin 0 99 0 ∧
    (OptionalSpinWidget.setValue "none" false
        (OptionalSpinWidget.initSpin (spin_type_of "optional_double"))
        (.float (mkRat 5 2))).map (fun p => OptionalSpinWidget.value p.1 p.2)
      = some (.int 2) ∧
    (some (Value.int 2) ≠ some (Value.float (mkRat 5 2))) ∧
    (OptionalSpinWidget.setValue "none" false
        (OptionalSpinWidget.initSpin (spin_type_of "optional_double"))
        Value.none).map (fun p => OptionalSpinWidget.value p.1 p.2)
      = some Value.none ∧
    (OptionalSpinWidget.setValue "none" false
        (OptionalSpinWidget.initSpin (spin_type_of "optional_int"))
        (.int 7)).map (fun p => OptionalSpinWidget.value p.1 p.2)
      = some (.int 7) := by decide

/-- C4 counterexample: in optional-index mode with options `x`, `y` and the
blank first row selected (the state `set_options` leaves), reading the value
yields the integer `-1` (`currentIndex() - 1`), not `None` as claimed. -/
theorem c4_counterexample :
    (FieldComboWidget.set_options comboFresh ["x", "y"] Option.none).map
        FieldComboWidget.value = some (.int (-1)) ∧
    some (Value.int (-1)) ≠ some Value.none := by decide

/-- C4 (amended): for a list field in optional-index mode
(`result_as_idx` and `add_blank_option` both true) whose options hold no
separator entry, reading the value with the blank first row selected yields
the integer `-1`, and reading it with any other row selected yields that
row's zero-based index among the real options (row `j + 1` holds option
`j`). -/
theorem c4_amended (c : ComboState) (opts : List String)
    (hmode : c.result_as_idx = true) (hblank : c.add_blank_option = true)
    (hsep : "---" ∉ opts) :
    ∃ c2, FieldComboWidget.set_options c opts Option.none = some c2 ∧
      FieldComboWidget.value { c2 with currentIndex := 0 } = .int (-1) ∧
      ∀ j (hj : j < opts.length),
        FieldComboWidget.value { c2 with currentIndex := (j : Int) + 1 }
            = .int j ∧
        c2.items[j + 1]? = some (ComboItem.opt opts[j]) := by
  have hitems : opts.map (fun item =>
      if item == "---" then ComboItem.sep else ComboItem.opt item)
      = opts.map ComboItem.opt := by
    apply List.map_congr_left
    intro x hx
    have : ¬(x == "---") = true := by
      simp only [beq_iff_eq]
      intro hcontr
      exact hsep (hcontr ▸ hx)
    simp [this]
  refine ⟨_, rfl, ?_, ?_⟩
  · simp [FieldComboWidget.value, hmode, hblank]
  · intro j hj
    constructor
    · simp [FieldComboWidget.value, hmode, hblank]
    · simp only [hblank, if_pos, hitems]
      show (ComboItem.opt "" :: opts.map ComboItem.opt)[j + 1]?
        = some (ComboItem.opt opts[j])
      rw [List.getElem?_cons_succ, List.getElem?_map,
        List.getElem?_eq_getElem hj]
      rfl

/-- C4 witness: the amended statement on the options `x`, `y`. -/
theorem c4_amended_witness :
    (comboFresh.result_as_idx = true ∧ comboFresh.add_blank_option = true ∧
      "---" ∉ (["x", "y"] : List String)) ∧
    (∃ c2, FieldComboWidget.set_options comboFresh ["x", "y"] Option.none
        = some c2 ∧
      FieldComboWidget.value { c2 with currentIndex := 0 } = .int (-1) ∧
      ∀ j (hj : j < (["x", "y"] : List String).length),
        FieldComboWidget.value { c2 with currentIndex := (j : Int) + 1 }
            = .int j ∧
        c2.items[j + 1]? = some (ComboItem.opt (["x", "y"] : List String)[j])) :=
  ⟨⟨by decide, by decide, by decide⟩,
    c4_amended comboFresh ["x", "y"] (by decide) (by decide) (by decide)⟩

end SleapForm

namespace SleapForm

/-- C10: `FieldComboWidget.setValue` guards the option lookup with the
non-strict `val <= len(self.options_list)`.  In index mode an integer below
the option count looks up in bounds; the integer *equal* to the count passes
the guard and reaches the out-of-bounds `IndexError`; and `-1` silently
selects the last option (Python end-relative indexing). -/
theorem c10_setValue_guard (c : ComboState) (hmode : c.result_as_idx = true) :
    (∀ v : Int, 0 ≤ v → v < (c.options_list.length : Int) →
      (FieldComboWidget.setValue c (.int v)).isSome = true) ∧
    FieldComboWidget.setValue c (.int (c.options_list.length : Int))
      = Option.none ∧
    (c.options_list ≠ [] →
      FieldComboWidget.setValue c (.int (-1))
        = some (FieldComboWidget.setCurrentText c
            ((c.options_list.getLast?).getD ""))) := by
  refine ⟨?_, ?_, ?_⟩
  · intro v h0 hlt
    simp only [FieldComboWidget.setValue, hmode, Bool.and_true]
    have hle : v ≤ (c.options_list.length : Int) := le_of_lt hlt
    simp only [hle, decide_eq_true_eq, if_pos]
    have : v.toNat < c.options_list.length := by omega
    simp [pyListGet, h0, List.getElem?_eq_getElem this]
  · simp only [FieldComboWidget.setValue, hmode, Bool.and_true]
    have hle : (c.options_list.length : Int) ≤ (c.options_list.length : Int) :=
      le_refl _
    simp only [hle, decide_eq_true_eq, if_pos]
    have h0 : (0 : Int) ≤ (c.options_list.length : Int) := by omega
    have hnone : c.options_list[(c.options_list.length : Int).toNat]?
        = Option.none := by
      apply List.getElem?_eq_none
      omega
    simp [pyListGet, h0, hnone]
  · intro hne
    have hlen : 0 < c.options_list.length := List.length_pos.mpr hne
    simp only [FieldComboWidget.setValue, hmode, Bool.and_true]
    have hle : (-1 : Int) ≤ (c.options_list.length : Int) := by omega
    simp only [hle, decide_eq_true_eq, if_pos]
    have hget : pyListGet c.options_list (-1)
        = some (c.options_list.getLast?.getD "") := by
      have h1 : ¬((0 : Int) ≤ -1) := by omega
      have h2 : (-(-1) : Int).toNat = 1 := by decide
      simp only [pyListGet, if_neg h1, h2]
      have h3 : 1 ≤ c.options_list.length := hlen
      simp only [if_pos h3]
      rw [← List.getLast?_eq_getElem?]
      cases hl : c.options_list.getLast? with
      | none =>
          rw [List.getLast?_eq_getElem?] at hl
          exfalso
          rw [List.getElem?_eq_none_iff] at hl
          omega
      | some a => rfl
    rw [hget]
    rfl

/-- C10 witness: instantiated on the options `x`, `y`. -/
theorem c10_setValue_guard_witness :
    comboXY.result_as_idx = true ∧
    ((∀ v : Int, 0 ≤ v → v < (comboXY.options_list.length : Int) →
      (FieldComboWidget.setValue comboXY (.int v)).isSome = true) ∧
    FieldComboWidget.setValue comboXY (.int (comboXY.options_list.length : Int))
      = Option.none ∧
    (comboXY.options_list ≠ [] →
      FieldComboWidget.setValue comboXY (.int (-1))
        = some (FieldComboWidget.setCurrentText comboXY
            ((comboXY.options_list.getLast?).getD "")))) :=
  ⟨by decide, c10_setValue_guard comboXY (by decide)⟩

end SleapForm

namespace SleapForm

theorem topFindMatches_empty_iff (f : Form) (name : String) :
    topFindMatches f name = [] ↔ name ∉ topVisibleNames f := by
  unfold topFindMatches topVisibleNames
  rw [List.map_eq_nil_iff, List.filter_eq_nil_iff]
  constructor
  · intro h hmem
    rcases List.mem_map.mp hmem with ⟨p, hp, rfl⟩
    rcases List.mem_filter.mp hp with ⟨hpl, hbutton⟩
    have := h p hpl
    simp [hbutton] at this
  · intro h p hp hcond
    apply h
    simp only [Bool.and_eq_true, beq_iff_eq] at hcond
    exact List.mem_map.mpr ⟨p, List.mem_filter.mpr ⟨hp, hcond.2⟩, hcond.1⟩

mutual
theorem stackFinds_empty_iff : ∀ (f : Form) (name : String),
    stackFinds f name = [] ↔ name ∉ stackVisibleNames f
  | .nil, name => by simp [stackFinds, stackVisibleNames]
  | .cons n dt w rest, name => by
      simp only [stackFinds, stackVisibleNames, List.append_eq_nil,
        List.mem_append]
      rw [widgetFind_empty_iff w name, stackFinds_empty_iff rest name]
      tauto
theorem widgetFind_empty_iff : ∀ (w : Widget) (name : String),
    widgetFind w name = [] ↔ name ∉ widgetVisibleNames w
  | .stack pages curIdx, name => by
      simp only [widgetFind, widgetVisibleNames]
      exact pageFind_empty_iff pages (stackCurrentName pages curIdx) name
  | .checkBox a, name => by simp [widgetFind, widgetVisibleNames]
  | .spinBox a, name => by simp [widgetFind, widgetVisibleNames]
  | .lineEdit a, name => by simp [widgetFind, widgetVisibleNames]
  | .pushButton a b, name => by simp [widgetFind, widgetVisibleNames]
  | .optionalSpin a b c, name => by simp [widgetFind, widgetVisibleNames]
  | .combo a, name => by simp [widgetFind, widgetVisibleNames]
theorem pageFind_empty_iff : ∀ (pages : Pages) (sel name : String),
    pageFind pages sel name = [] ↔ name ∉ pageVisibleNames pages sel
  | .nil, sel, name => by simp [pageFind, pageVisibleNames]
  | .cons pn page rest, sel, name => by
      by_cases h : rest.hasName sel
      · simp only [pageFind, pageVisibleNames, if_pos h]
        exact pageFind_empty_iff rest sel name
      · by_cases h2 : (pn == sel) = true
        · simp only [pageFind, pageVisibleNames, if_neg h, if_pos h2,
            List.append_eq_nil, List.mem_append]
          rw [topFindMatches_empty_iff page name,
            stackFinds_empty_iff page name]
          tauto
        · have h3 : pn ≠ sel := by simpa using h2
          simp [pageFind, pageVisibleNames, if_neg h, h3]
end

/-- C8: `find_field` returns the form's own matching non-button controls
plus, for each stacked widget, only the matches of the currently selected
page, recursively: it finds a name exactly when the name is reachable
through the currently selected pages, and in particular returns no match
for `a`, a field kept only on the non-selected page `p` of `formTwoPages`,
while still finding `b` on the selected page `q`. -/
theorem c8_find_field :
    (∀ (f : Form) (name : String),
      find_field f name = [] ↔ name ∉ visibleNames f) ∧
    find_field formTwoPages "a" = [] ∧
    find_field formTwoPages "b" ≠ [] := by
  refine ⟨?_, by decide, by decide⟩
  intro f name
  unfold find_field visibleNames
  rw [List.append_eq_nil]
  rw [topFindMatches_empty_iff, stackFinds_empty_iff]
  simp only [List.mem_append]
  tauto

/-- C8 witness: the characterisation applied to the two-page fixture. -/
theorem c8_find_field_witness :
    find_field formTwoPages "a" = [] ↔ "a" ∉ visibleNames formTwoPages :=
  c8_find_field.1 formTwoPages "a"

end SleapForm

namespace SleapForm

theorem formHasName_iff_lookup :
    ∀ (f : Form) (k : String),
      formHasName f k = true ↔ (formLookup f k).isSome = true
  | .nil, k => by simp [formHasName, Form.toList, formLookup]
  | .cons n dt w rest, k => by
      by_cases h : (n == k) = true
      · simp [formHasName, Form.toList, formLookup, h]
      · simp only [formHasName, Form.toList, List.any_cons, formLookup, h,
          Bool.false_or, if_neg h]
        exact formHasName_iff_lookup rest k

theorem lookup_of_mem_nodup :
    ∀ (f : Form), ((f.toList.map (fun p => p.1)).Nodup) →
      ∀ ent ∈ f.toList, formLookup f ent.1 = some (ent.2.1, ent.2.2)
  | .nil, _, ent, hent => by simp [Form.toList] at hent
  | .cons n dt w rest, hnodup, ent, hent => by
      simp only [Form.toList, List.map_cons, List.nodup_cons] at hnodup
      rcases List.mem_cons.mp hent with rfl | hent'
      · simp [formLookup]
      · have hne : ent.1 ≠ n := by
          intro hcontr
          exact hnodup.1 (hcontr ▸ List.mem_map_of_mem (fun p => p.1) hent')
        have : (n == ent.1) = false := by
          simp only [beq_eq_false_iff_ne]
          exact fun hc => hne hc.symm
        simp only [formLookup, this, Bool.false_eq_true, if_false]
        exact lookup_of_mem_nodup rest hnodup.2 ent hent'

theorem updateFieldWidget_lookup :
    ∀ (f : Form) (k : String) (v : Value) (f' : Form),
      updateFieldWidget f k v = some f' →
      (∀ k', k' ≠ k → formLookup f' k' = formLookup f k') ∧
      (∀ dt w, formLookup f k = some (dt, w) →
        ∃ w', set_widget_value w v = some w' ∧ formLookup f' k = some (dt, w'))
  | .nil, k, v, f', hupd => by
      simp only [updateFieldWidget, Option.some.injEq] at hupd
      subst hupd
      exact ⟨fun _ _ => rfl, fun dt w h => by simp [formLookup] at h⟩
  | .cons n dt0 w0 rest, k, v, f', hupd => by
      by_cases h : (n == k) = true
      · simp only [updateFieldWidget, h, if_pos] at hupd
        rcases Option.map_eq_some'.mp hupd with ⟨w', hset, rfl⟩
        constructor
        · intro k' hk'
          have : (n == k') = false := by
            simp only [beq_eq_false_iff_ne]
            intro hc
            exact hk' ((beq_iff_eq.mp h) ▸ hc ▸ rfl)
          simp [formLookup, this]
        · intro dt w hl
          simp only [formLookup, h, if_pos, Option.some.injEq] at hl
          cases hl
          exact ⟨w', hset, by simp [formLookup, h]⟩
      · simp only [updateFieldWidget, h, Bool.false_eq_true, if_false] at hupd
        rcases Option.map_eq_some'.mp hupd with ⟨rest', hrest, rfl⟩
        have ih := updateFieldWidget_lookup rest k v rest' hrest
        constructor
        · intro k' hk'
          by_cases h2 : (n == k') = true
          · simp [formLookup, h2]
          · simp only [formLookup, h2, Bool.false_eq_true, if_false]
            exact ih.1 k' hk'
        · intro dt w hl
          simp only [formLookup, h, Bool.false_eq_true, if_false] at hl
          rcases ih.2 dt w hl with ⟨w', hset, hl'⟩
          exact ⟨w', hset, by simp [formLookup, h, hl']⟩

end SleapForm

namespace SleapForm

theorem updateFieldWidget_none_lookup :
    ∀ (f : Form) (k : String) (v : Value) (f' : Form),
      updateFieldWidget f k v = some f' →
      formLookup f k = Option.none → formLookup f' k = Option.none
  | .nil, k, v, f', hupd, hl => by
      simp only [updateFieldWidget, Option.some.injEq] at hupd
      subst hupd
      rfl
  | .cons n dt0 w0 rest, k, v, f', hupd, hl => by
      by_cases h : (n == k) = true
      · simp [formLookup, h] at hl
      · simp only [updateFieldWidget, h, Bool.false_eq_true, if_false] at hupd
        rcases Option.map_eq_some'.mp hupd with ⟨rest', hrest, rfl⟩
        simp only [formLookup, h, Bool.false_eq_true, if_false] at hl ⊢
        exact updateFieldWidget_none_lookup rest k v rest' hrest hl

theorem updateFieldWidget_lookup_preserved (f : Form) (k : String) (v : Value)
    (f' : Form) (hupd : updateFieldWidget f k v = some f') (k' : String) :
    (formLookup f' k').isSome = (formLookup f k').isSome := by
  by_cases hk : k' = k
  · subst hk
    cases hl : formLookup f k' with
    | none => rw [updateFieldWidget_none_lookup f k' v f' hupd hl]
    | some p =>
        rcases (updateFieldWidget_lookup f k' v f' hupd).2 p.1 p.2
          (by simpa using hl) with ⟨w', _, hl'⟩
        simp [hl']
  · rw [(updateFieldWidget_lookup f k v f' hupd).1 k' hk]

theorem set_form_data_lookup :
    ∀ (m : List (String × Value)) (f f₂ : Form),
      set_form_data f m = some f₂ →
      (m.map (fun p => p.1)).Nodup →
      (∀ k', (∀ kv ∈ m, kv.1 ≠ k') → formLookup f₂ k' = formLookup f k') ∧
      (∀ kv ∈ m, ∀ dt w, formLookup f kv.1 = some (dt, w) →
        ∃ w', set_widget_value w kv.2 = some w' ∧
          formLookup f₂ kv.1 = some (dt, w'))
  | [], f, f₂, hset, _ => by
      simp only [set_form_data, List.foldlM_nil, pure, Option.some.injEq]
        at hset
      subst hset
      exact ⟨fun _ _ => rfl, fun kv hkv => by simp at hkv⟩
  | kv0 :: m', f, f₂, hset, hnodup => by
      simp only [List.map_cons, List.nodup_cons] at hnodup
      have hstep : set_form_data f (kv0 :: m')
          = (if formHasName f kv0.1 = true then updateFieldWidget f kv0.1 kv0.2
             else pure f).bind (fun f1 => set_form_data f1 m') := by
        simp [set_form_data, List.foldlM_cons]
      rw [hstep] at hset
      rcases Option.bind_eq_some.mp hset with ⟨f1, hf1, hrest⟩
      have ih := set_form_data_lookup m' f1 f₂ hrest hnodup.2
      by_cases hhas : formHasName f kv0.1 = true
      · rw [if_pos hhas] at hf1
        have hupd := updateFieldWidget_lookup f kv0.1 kv0.2 f1 hf1
        constructor
        · intro k' hk'
          have h1 : formLookup f₂ k' = formLookup f1 k' :=
            ih.1 k' (fun kv hkv => hk' kv (List.mem_cons_of_mem kv0 hkv))
          have h2 : formLookup f1 k' = formLookup f k' :=
            hupd.1 k' (fun hc => hk' kv0 (List.mem_cons_self kv0 m') hc.symm)
          rw [h1, h2]
        · intro kv hkv dt w hl
          rcases List.mem_cons.mp hkv with rfl | hkv'
          · rcases hupd.2 dt w hl with ⟨w', hsetw, hl1⟩
            refine ⟨w', hsetw, ?_⟩
            have : formLookup f₂ kv.1 = formLookup f1 kv.1 :=
              ih.1 kv.1 (fun kv2 hkv2 => by
                intro hc
                exact hnodup.1 (hc ▸ List.mem_map_of_mem (fun p => p.1) hkv2))
            rw [this, hl1]
          · by_cases heq : kv.1 = kv0.1
            · exfalso
              exact hnodup.1 (heq ▸ List.mem_map_of_mem (fun p => p.1) hkv')
            · have : formLookup f1 kv.1 = formLookup f kv.1 :=
                hupd.1 kv.1 heq
              exact ih.2 kv hkv' dt w (this ▸ hl)
      · rw [if_neg hhas] at hf1
        simp only [pure, Option.some.injEq] at hf1
        subst hf1
        constructor
        · intro k' hk'
          exact ih.1 k' (fun kv hkv => hk' kv (List.mem_cons_of_mem kv0 hkv))
        · intro kv hkv dt w hl
          rcases List.mem_cons.mp hkv with rfl | hkv'
          · exfalso
            apply hhas
            rw [formHasName_iff_lookup, hl]
            rfl
          · exact ih.2 kv hkv' dt w hl

end SleapForm

namespace SleapForm

theorem topFormData_lookup :
    ∀ (f : Form) (D : List (String × Value)) (k dt : String) (w : Widget)
      (v : Value),
      topFormData f = some D →
      formLookup f k = some (dt, w) →
      k ≠ "" → w.isButton = false →
      get_widget_value dt w = some v →
      dictLookup k D = some v
  | .nil, D, k, dt, w, v, htop, hl, _, _, _ => by simp [formLookup] at hl
  | .cons n dt0 w0 rest, D, k, dt, w, v, htop, hl, hk, hbtn, hval => by
      by_cases h : (n == k) = true
      · simp only [formLookup, h, if_pos, Option.some.injEq] at hl
        injection hl with hdt hw
        subst hdt
        subst hw
        have hn : n = k := beq_iff_eq.mp h
        have hguard : (decide (n ≠ "") && !w0.isButton) = true := by
          rw [hn]
          simp [hk, hbtn]
        simp only [topFormData] at htop
        rw [if_pos hguard] at htop
        rw [hval] at htop
        cases htop2 : topFormData rest with
        | none => rw [htop2] at htop; simp at htop
        | some d =>
            rw [htop2] at htop
            simp only [Option.some.injEq] at htop
            subst htop
            simp [dictLookup, List.find?_cons, h]
      · simp only [formLookup, h, Bool.false_eq_true, if_false] at hl
        by_cases hguard : (decide (n ≠ "") && !w0.isButton) = true
        · simp only [topFormData] at htop
          rw [if_pos hguard] at htop
          cases hv0 : get_widget_value dt0 w0 with
          | none => rw [hv0] at htop; simp at htop
          | some v0 =>
              rw [hv0] at htop
              cases htop2 : topFormData rest with
              | none => rw [htop2] at htop; simp at htop
              | some d =>
                  rw [htop2] at htop
                  simp only [Option.some.injEq] at htop
                  subst htop
                  have ih := topFormData_lookup rest d k dt w v htop2 hl hk
                    hbtn hval
                  simp only [dictLookup, List.find?_cons, h,
                    Bool.false_eq_true]
                  simpa [dictLookup] using ih
        · simp only [topFormData] at htop
          rw [if_neg hguard] at htop
          exact topFormData_lookup rest D k dt w v htop hl hk hbtn hval

theorem dictLookup_map_replace (k k' : String) (v : Value) (hk : k' ≠ k) :
    ∀ d : List (String × Value),
      dictLookup k (d.map (fun p => if p.1 == k' then (k', v) else p))
        = dictLookup k d
  | [] => rfl
  | p :: d => by
      by_cases h : (p.1 == k') = true
      · have hp : p.1 = k' := beq_iff_eq.mp h
        have h1 : (k' == k) = false := by
          simp only [beq_eq_false_iff_ne]
          exact hk
        have h2 : (p.1 == k) = false := by
          rw [hp]
          exact h1
        simp only [List.map_cons, h, if_pos, dictLookup, List.find?_cons, h1,
          h2, Bool.false_eq_true]
        exact dictLookup_map_replace k k' v hk d
      · simp only [List.map_cons, h, Bool.false_eq_true, if_false]
        by_cases h2 : (p.1 == k) = true
        · simp [dictLookup, List.find?_cons, h2]
        · simp only [dictLookup, List.find?_cons, h2, Bool.false_eq_true]
          exact dictLookup_map_replace k k' v hk d

theorem dictLookup_dictInsert_ne (d : List (String × Value)) (k k' : String)
    (v : Value) (h : k' ≠ k) :
    dictLookup k (dictInsert d k' v) = dictLookup k d := by
  unfold dictInsert
  by_cases hany : (d.any (fun p => p.1 == k')) = true
  · simp only [hany, if_pos]
    exact dictLookup_map_replace k k' v h d
  · simp only [hany, Bool.false_eq_true, if_false, dictLookup,
      List.find?_append]
    have : List.find? (fun p => p.1 == k) [(k', v)] = Option.none := by
      simp only [List.find?_cons, List.find?_nil]
      have : (k' == k) = false := by
        simp only [beq_eq_false_iff_ne]
        exact h
      simp [this]
    rw [this]
    cases List.find? (fun p => p.1 == k) d <;> rfl

theorem dictLookup_dictUpdate_not_mem :
    ∀ (new d : List (String × Value)) (k : String),
      (∀ p ∈ new, p.1 ≠ k) → dictLookup k (dictUpdate d new) = dictLookup k d
  | [], d, k, _ => rfl
  | p :: new', d, k, hnew => by
      have hstep : dictUpdate d (p :: new')
          = dictUpdate (dictInsert d p.1 p.2) new' := by
        simp [dictUpdate, List.foldl_cons]
      rw [hstep,
        dictLookup_dictUpdate_not_mem new' (dictInsert d p.1 p.2) k
          (fun q hq => hnew q (List.mem_cons_of_mem p hq)),
        dictLookup_dictInsert_ne d k p.1 p.2
          (hnew p (List.mem_cons_self p new'))]

theorem dictLookup_foldl_updates :
    ∀ (upds : List (List (String × Value))) (D : List (String × Value))
      (k : String),
      (∀ pd ∈ upds, ∀ p ∈ pd, p.1 ≠ k) →
      dictLookup k (upds.foldl dictUpdate D) = dictLookup k D
  | [], D, k, _ => rfl
  | pd :: upds', D, k, h => by
      rw [List.foldl_cons,
        dictLookup_foldl_updates upds' (dictUpdate D pd) k
          (fun pd2 hpd2 => h pd2 (List.mem_cons_of_mem pd hpd2)),
        dictLookup_dictUpdate_not_mem pd D k (h pd (List.mem_cons_self pd upds'))]

theorem stackDatasF_no_key :
    ∀ (f : Form) (upds : List (List (String × Value))) (k : String),
      stackDatasF f = some upds →
      (∀ ent ∈ f.toList, widgetContribKey ent.2.2 k = false) →
      ∀ pd ∈ upds, ∀ p ∈ pd, p.1 ≠ k
  | .nil, upds, k, hst, _, pd, hpd => by
      simp only [stackDatasF, Option.some.injEq] at hst
      subst hst
      simp at hpd
  | .cons n dt w rest, upds, k, hst, hcontrib, pd, hpd => by
      have hw := hcontrib (n, dt, w) (by simp [Form.toList])
      cases hws : stackDatasW w with
      | none => rw [stackDatasF, hws] at hst; simp at hst
      | some ws =>
          cases hrs : stackDatasF rest with
          | none => rw [stackDatasF, hws, hrs] at hst; simp at hst
          | some rs =>
              rw [stackDatasF, hws, hrs] at hst
              simp only [Option.some.injEq] at hst
              subst hst
              rcases List.mem_append.mp hpd with hws' | hrs'
              · cases w with
                | stack pages curIdx =>
                    simp only [stackDatasW] at hws
                    cases hpg : pageData pages (stackCurrentName pages curIdx) with
                    | none => rw [hpg] at hws; simp at hws
                    | some pd0 =>
                        rw [hpg] at hws
                        simp only [Option.some.injEq] at hws
                        subst hws
                        simp only [List.mem_singleton] at hws'
                        subst hws'
                        simp only [widgetContribKey, hpg] at hw
                        intro p hp
                        have := List.any_eq_false.mp hw p hp
                        simpa using this
                | checkBox a => simp only [stackDatasW, Option.some.injEq] at hws; subst hws; simp at hws'
                | spinBox a => simp only [stackDatasW, Option.some.injEq] at hws; subst hws; simp at hws'
                | lineEdit a => simp only [stackDatasW, Option.some.injEq] at hws; subst hws; simp at hws'
                | pushButton a b => simp only [stackDatasW, Option.some.injEq] at hws; subst hws; simp at hws'
                | optionalSpin a b c => simp only [stackDatasW, Option.some.injEq] at hws; subst hws; simp at hws'
                | combo a => simp only [stackDatasW, Option.some.injEq] at hws; subst hws; simp at hws'
              · exact stackDatasF_no_key rest rs k hrs
                  (fun ent hent => hcontrib ent (by
                    simp only [Form.toList, List.mem_cons]
                    exact Or.inr hent)) pd hrs'

theorem get_form_data_inv (f : Form) (D : List (String × Value))
    (h : get_form_data f = some D) :
    ∃ top upds, topFormData f = some top ∧ stackDatasF f = some upds ∧
      D = upds.foldl dictUpdate top := by
  unfold get_form_data at h
  cases htop : topFormData f with
  | none => rw [htop] at h; simp at h
  | some top =>
      cases hupds : stackDatasF f with
      | none => rw [htop, hupds] at h; simp at h
      | some upds =>
          rw [htop, hupds] at h
          simp only [Option.some.injEq] at h
          exact ⟨top, upds, rfl, rfl, h.symm⟩

end SleapForm

namespace SleapForm

theorem bool_nor {a b : Bool} (h : (!(a || b)) = true) :
    a = false ∧ b = false := by
  cases a <;> cases b <;> simp_all

theorem file_dt_ne (dt : String) (h : pyStartsWith dt "file_" = true) :
    (dt == "sci") = false ∧ (dt == "int") = false := by
  constructor
  · by_cases hc : dt = "sci"
    · subst hc
      exact absurd h (by decide)
    · simp [hc]
  · by_cases hc : dt = "int"
    · subst hc
      exact absurd h (by decide)
    · simp [hc]

theorem coerceRead_id (dt : String) (v : Value) (hsci : (dt == "sci") = false)
    (hint : (dt == "int") = false)
    (hfile : pyStartsWith dt "file_" = true → (v == Value.str "None") = false) :
    coerceRead dt v = some v := by
  unfold coerceRead
  rw [hsci]
  rw [hint]
  simp only [Bool.false_eq_true, if_false]
  by_cases hf : pyStartsWith dt "file_" = true
  · simp [hf, hfile hf]
  · simp [hf]

theorem coerceRead_int_val (dt : String) (n : Int)
    (hsci : (dt == "sci") = false) :
    coerceRead dt (.int n) = some (.int n) := by
  unfold coerceRead
  rw [hsci]
  simp only [Bool.false_eq_true, if_false]
  by_cases hint : (dt == "int") = true
  · simp [hint, pyToIntOpt]
  · simp only [hint, Bool.false_eq_true, if_false]
    by_cases hf : pyStartsWith dt "file_" = true
    · simp [hf]
    · simp [hf]

theorem coerceRead_float_val (dt : String) (q : ℚ)
    (hint : (dt == "int") = false) :
    coerceRead dt (.float q) = some (.float q) := by
  unfold coerceRead
  by_cases hsci : (dt == "sci") = true
  · simp [hsci, pyToRatOpt]
  · simp only [hsci, Bool.false_eq_true, if_false]
    rw [hint]
    simp only [Bool.false_eq_true, if_false]
    by_cases hf : pyStartsWith dt "file_" = true
    · simp [hf]
    · simp [hf]

theorem spin_set_int (lo hi cur n : Int)
    (h1 : decide (lo ≤ n) = true) (h2 : decide (n ≤ hi) = true) :
    SpinState.setValue (.intSpin lo hi cur) (.int n)
      = some (.intSpin lo hi n) := by
  simp only [SpinState.setValue, pyToIntOpt, Option.map_some']
  have e : clampI lo hi n = n := by
    simp only [decide_eq_true_eq] at h1 h2
    unfold clampI
    omega
  rw [e]

theorem spin_set_float (lo hi cur q : ℚ) (hr : round2 q = q)
    (h1 : Rat.blt q lo = false) (h2 : Rat.blt hi q = false) :
    SpinState.setValue (.doubleSpin lo hi cur) (.float q)
      = some (.doubleSpin lo hi q) := by
  simp only [SpinState.setValue, pyToRatOpt, Option.map_some']
  rw [hr]
  unfold clampQ
  rw [h1, h2]
  simp

theorem findText_map_opt :
    ∀ (opts : List String) (j : Nat) (hj : j < opts.length), opts.Nodup →
      FieldComboWidget.findText (opts.map ComboItem.opt) opts[j] = (j : Int)
  | o :: rest, 0, hj, hnodup => by
      simp [FieldComboWidget.findText, ComboItem.text]
  | o :: rest, j + 1, hj, hnodup => by
      rcases List.nodup_cons.mp hnodup with ⟨hnotmem, hnd⟩
      have hj' : j < rest.length := by
        simpa using Nat.lt_of_succ_lt_succ hj
      have hne : (ComboItem.text (ComboItem.opt o) == rest[j]) = false := by
        simp only [ComboItem.text, beq_eq_false_iff_ne]
        intro hc
        exact hnotmem (hc ▸ List.getElem_mem hj')
      have ih := findText_map_opt rest j hj' hnd
      simp only [List.map_cons, List.getElem_cons_succ]
      rw [FieldComboWidget.findText, hne]
      simp only [Bool.false_eq_true, if_false]
      rw [ih]
      have hpos : ¬((j : Int) < 0) := by omega
      rw [if_neg hpos]
      omega

theorem findText_any :
    ∀ (items : List ComboItem) (t : String),
      items.any (fun it => it.text == t) = true →
      ∃ i : Nat, FieldComboWidget.findText items t = (i : Int) ∧
        ∃ (h : i < items.length), (items.get ⟨i, h⟩).text = t
  | it :: rest, t, hany => by
      by_cases h : (it.text == t) = true
      · exact ⟨0, by simp [FieldComboWidget.findText, h], by simp, beq_iff_eq.mp h⟩
      · have hrest : rest.any (fun it => it.text == t) = true := by
          simp only [List.any_cons, h, Bool.false_or] at hany
          exact hany
        rcases findText_any rest t hrest with ⟨i, heq, hlt, htext⟩
        refine ⟨i + 1, ?_, by simpa using Nat.succ_lt_succ hlt, ?_⟩
        · simp only [FieldComboWidget.findText, h, Bool.false_eq_true, if_false, heq]
          have : ¬((i : Int) < 0) := by omega
          simp only [this, if_false]
          omega
        · simpa using htext

end SleapForm

namespace SleapForm

theorem bool_not_true {a : Bool} (h : (!a) = true) : a = false := by
  cases a <;> simp_all

theorem pages_hasName_iff_mem :
    ∀ (pages : Pages) (s : String),
      Pages.hasName pages s = true ↔ s ∈ pages.names
  | .nil, s => by simp [Pages.hasName, Pages.names]
  | .cons n page rest, s => by
      simp only [Pages.hasName, Pages.names, Bool.or_eq_true, beq_iff_eq,
        List.mem_cons]
      rw [pages_hasName_iff_mem rest s]
      tauto

theorem combo_int_roundtrip (c : ComboState) (j : Int)
    (hmode : c.result_as_idx = true)
    (hitems : c.items
      = (if c.add_blank_option then [ComboItem.opt ""] else []) ++
        c.options_list.map ComboItem.opt)
    (hnodup : c.options_list.Nodup)
    (hblank : c.add_blank_option = true → ("" : String) ∉ c.options_list)
    (h0 : (0 : Int) ≤ j) (hlt : j < (c.options_list.length : Int)) :
    ∃ c2, FieldComboWidget.setValue c (.int j) = some c2 ∧
      FieldComboWidget.value c2 = .int j := by
  have hjnat : j.toNat < c.options_list.length := by omega
  have hgetopt : pyListGet c.options_list j
      = some (c.options_list[j.toNat]) := by
    unfold pyListGet
    rw [if_pos h0]
    exact List.getElem?_eq_getElem hjnat
  have hcond : (decide (j ≤ (c.options_list.length : Int))
      && c.result_as_idx) = true := by
    rw [hmode]
    simp only [Bool.and_true, decide_eq_true_eq]
    omega
  have hsmem : c.options_list[j.toNat] ∈ c.options_list :=
    List.getElem_mem hjnat
  have hfind : FieldComboWidget.findText c.items (c.options_list[j.toNat])
      = (if c.add_blank_option then 1 else 0) + (j.toNat : Int) := by
    rw [hitems]
    cases hab : c.add_blank_option with
    | false =>
        rw [if_neg Bool.false_ne_true, if_neg Bool.false_ne_true,
          List.nil_append,
          findText_map_opt c.options_list j.toNat hjnat hnodup]
        omega
    | true =>
        have hsne : (ComboItem.text (ComboItem.opt "")
            == c.options_list[j.toNat]) = false := by
          simp only [ComboItem.text, beq_eq_false_iff_ne]
          intro hc
          exact hblank hab (hc ▸ hsmem)
        rw [if_pos rfl, if_pos rfl, List.singleton_append,
          FieldComboWidget.findText, hsne]
        simp only [Bool.false_eq_true, if_false]
        rw [findText_map_opt c.options_list j.toNat hjnat hnodup]
        have : ¬((j.toNat : Int) < 0) := by omega
        rw [if_neg this]
        omega
  refine ⟨FieldComboWidget.setCurrentText c c.options_list[j.toNat], ?_, ?_⟩
  · show (if (decide (j ≤ (c.options_list.length : Int))
          && c.result_as_idx) = true
        then (pyListGet c.options_list j).map
          (fun s => FieldComboWidget.setCurrentText c s)
        else some (FieldComboWidget.setCurrentText c (pyStr (.int j))))
      = some (FieldComboWidget.setCurrentText c c.options_list[j.toNat])
    rw [if_pos hcond, hgetopt]
    rfl
  · unfold FieldComboWidget.setCurrentText
    rw [hfind]
    have hgt : ((if c.add_blank_option then 1 else 0) + (j.toNat : Int))
        > -1 := by
      cases c.add_blank_option
      · show ((0 : Int) + (j.toNat : Int)) > -1
        omega
      · show ((1 : Int) + (j.toNat : Int)) > -1
        omega
    rw [if_pos hgt]
    unfold FieldComboWidget.value
    rw [if_pos hmode]
    cases hab : c.add_blank_option with
    | false =>
        show Value.int ((0 : Int) + (j.toNat : Int) - 0) = Value.int j
        congr 1
        omega
    | true =>
        show Value.int ((1 : Int) + (j.toNat : Int) - 1) = Value.int j
        congr 1
        omega

/-- Any value satisfying `acceptsB` is stored by `set_widget_value` and read
back unchanged by `get_widget_value` (and never lands on a button). -/
theorem widget_roundtrip (dt : String) (w : Widget) (v : Value)
    (h : acceptsB dt w v = true) :
    ∃ w', set_widget_value w v = some w' ∧ get_widget_value dt w' = some v ∧
      w'.isButton = false := by
  cases w with
  | checkBox b =>
      cases v with
      | bool b2 =>
          simp only [acceptsB] at h
          obtain ⟨hsci, hint⟩ := bool_nor h
          exact ⟨.checkBox b2, rfl,
            coerceRead_id dt (.bool b2) hsci hint (fun _ => rfl), rfl⟩
      | none => simp [acceptsB] at h
      | int n => simp [acceptsB] at h
      | float q => simp [acceptsB] at h
      | str s => simp [acceptsB] at h
  | spinBox spin =>
      cases spin with
      | intSpin lo hi cur =>
          cases v with
          | int n =>
              simp only [acceptsB, Bool.and_eq_true] at h
              obtain ⟨⟨hns, h1⟩, h2⟩ := h
              have hsci := bool_not_true hns
              refine ⟨.spinBox (.intSpin lo hi n), ?_, ?_, rfl⟩
              · show (SpinState.setValue (.intSpin lo hi cur) (.int n)).map
                    Widget.spinBox = some (.spinBox (.intSpin lo hi n))
                rw [spin_set_int lo hi cur n h1 h2]
                rfl
              · exact coerceRead_int_val dt n hsci
          | none => simp [acceptsB] at h
          | bool b => simp [acceptsB] at h
          | float q => simp [acceptsB] at h
          | str s => simp [acceptsB] at h
      | doubleSpin lo hi cur =>
          cases v with
          | float q =>
              simp only [acceptsB, Bool.and_eq_true] at h
              obtain ⟨⟨⟨hni, hr⟩, hlo⟩, hhi⟩ := h
              have hint := bool_not_true hni
              have hr' : round2 q = q := beq_iff_eq.mp hr
              have hlo' := bool_not_true hlo
              have hhi' := bool_not_true hhi
              refine ⟨.spinBox (.doubleSpin lo hi q), ?_, ?_, rfl⟩
              · show (SpinState.setValue (.doubleSpin lo hi cur)
                    (.float q)).map Widget.spinBox
                    = some (.spinBox (.doubleSpin lo hi q))
                rw [spin_set_float lo hi cur q hr' hlo' hhi']
                rfl
              · exact coerceRead_float_val dt q hint
          | none => simp [acceptsB] at h
          | bool b => simp [acceptsB] at h
          | int n => simp [acceptsB] at h
          | str s => simp [acceptsB] at h
  | lineEdit s0 =>
      cases v with
      | str s =>
          simp only [acceptsB, Bool.and_eq_true] at h
          obtain ⟨hnor, hfile⟩ := h
          obtain ⟨hsci, hint⟩ := bool_nor hnor
          refine ⟨.lineEdit s, rfl, ?_, rfl⟩
          apply coerceRead_id dt (.str s) hsci hint
          intro hf
          by_cases hs : s = "None"
          · subst hs
            rw [hf] at hfile
            simp at hfile
          · simp [hs]
      | none =>
          simp only [acceptsB] at h
          refine ⟨.lineEdit "None", rfl, ?_, rfl⟩
          obtain ⟨hsci, hint⟩ := file_dt_ne dt h
          show coerceRead dt (.str "None") = some Value.none
          unfold coerceRead
          rw [hsci, hint]
          simp [h]
      | bool b => simp [acceptsB] at h
      | int n => simp [acceptsB] at h
      | float q => simp [acceptsB] at h
  | pushButton label checked =>
      cases v <;> simp [acceptsB] at h
  | optionalSpin ns checked spin =>
      cases v with
      | none =>
          simp only [acceptsB] at h
          obtain ⟨hsci, hint⟩ := bool_nor h
          refine ⟨.optionalSpin ns true spin, rfl, ?_, rfl⟩
          show coerceRead dt (OptionalSpinWidget.value true spin) = _
          exact coerceRead_id dt _ hsci hint (fun _ => rfl)
      | int n =>
          cases spin with
          | intSpin lo hi cur =>
              simp only [acceptsB, Bool.and_eq_true] at h
              obtain ⟨⟨hns, h1⟩, h2⟩ := h
              have hsci := bool_not_true hns
              refine ⟨.optionalSpin ns false (.intSpin lo hi n), ?_, ?_, rfl⟩
              · show (OptionalSpinWidget.setValue ns checked
                    (.intSpin lo hi cur) (.int n)).map
                    (fun p => Widget.optionalSpin ns p.1 p.2)
                    = some (.optionalSpin ns false (.intSpin lo hi n))
                unfold OptionalSpinWidget.setValue
                rw [show OptionalSpinWidget.isNoneVal ns (.int n) = false from rfl]
                simp only [Bool.false_eq_true, if_false]
                rw [spin_set_int lo hi cur n h1 h2]
                rfl
              · exact coerceRead_int_val dt n hsci
          | doubleSpin lo hi cur => simp [acceptsB] at h
      | float q =>
          cases spin with
          | intSpin lo hi cur => simp [acceptsB] at h
          | doubleSpin lo hi cur =>
              simp only [acceptsB, Bool.and_eq_true] at h
              obtain ⟨⟨⟨hni, hr⟩, hlo⟩, hhi⟩ := h
              have hint := bool_not_true hni
              have hr' : round2 q = q := beq_iff_eq.mp hr
              refine ⟨.optionalSpin ns false (.doubleSpin lo hi q), ?_, ?_, rfl⟩
              · show (OptionalSpinWidget.setValue ns checked
                    (.doubleSpin lo hi cur) (.float q)).map
                    (fun p => Widget.optionalSpin ns p.1 p.2)
                    = some (.optionalSpin ns false (.doubleSpin lo hi q))
                unfold OptionalSpinWidget.setValue
                rw [show OptionalSpinWidget.isNoneVal ns (.float q) = false from rfl]
                simp only [Bool.false_eq_true, if_false]
                rw [spin_set_float lo hi cur q hr' (bool_not_true hlo)
                  (bool_not_true hhi)]
                rfl
              · exact coerceRead_float_val dt q hint
      | bool b => cases spin <;> simp [acceptsB] at h
      | str s => cases spin <;> simp [acceptsB] at h
  | combo c =>
      cases v with
      | str s =>
          simp only [acceptsB, Bool.and_eq_true] at h
          obtain ⟨⟨⟨hmode, hany⟩, hnor⟩, hfile⟩ := h
          obtain ⟨hsci, hint⟩ := bool_nor hnor
          have hmode' : c.result_as_idx = false := by simpa using hmode
          rcases findText_any c.items s hany with ⟨i, heq, hlt, htext⟩
          refine ⟨.combo (FieldComboWidget.setCurrentText c s), rfl, ?_, rfl⟩
          have hcur : FieldComboWidget.setCurrentText c s
              = { c with currentIndex := (i : Int) } := by
            unfold FieldComboWidget.setCurrentText
            rw [heq]
            have : ((i : Int) > -1) = True := by
              simp only [eq_iff_iff, iff_true]
              omega
            simp [this]
          have hraw : rawWidgetValue (.combo (FieldComboWidget.setCurrentText c s))
              = .str s := by
            rw [hcur]
            unfold rawWidgetValue FieldComboWidget.value
            simp only [hmode', Bool.false_eq_true, if_false]
            unfold FieldComboWidget.currentText
            have hneg : ¬((i : Int) < 0) := by omega
            simp only [hneg, if_false, Int.toNat_natCast]
            rw [List.getElem?_eq_getElem hlt]
            simp only [Option.map_some', Option.getD_some]
            rw [show c.items[i] = c.items.get ⟨i, hlt⟩ from rfl, htext]
          show coerceRead dt (rawWidgetValue _) = some (.str s)
          rw [hraw]
          apply coerceRead_id dt (.str s) hsci hint
          intro hf
          by_cases hs : s = "None"
          · subst hs
            rw [hf] at hfile
            simp at hfile
          · simp [hs]
      | int j =>
          simp only [acceptsB, Bool.and_eq_true] at h
          obtain ⟨⟨⟨⟨⟨⟨hmode, hitems⟩, hnodup⟩, hblank⟩, h0⟩, hlt⟩, hsci⟩ := h
          have hmode' : c.result_as_idx = true := by simpa using hmode
          have hitems' : c.items
              = (if c.add_blank_option then [ComboItem.opt ""] else []) ++
                c.options_list.map ComboItem.opt := beq_iff_eq.mp hitems
          have hnodup' : c.options_list.Nodup := of_decide_eq_true hnodup
          have hblank' : c.add_blank_option = true →
              ("" : String) ∉ c.options_list := by
            intro hab hmem
            rw [hab] at hblank
            simp only [Bool.not_true, Bool.false_or, Bool.not_eq_true] at hblank
            rw [List.contains_eq_any_beq] at hblank
            have : c.options_list.any (fun x => "" == x) = true :=
              List.any_eq_true.mpr ⟨"", hmem, by simp⟩
            rw [this] at hblank
            exact Bool.noConfusion hblank
          have h0' : (0 : Int) ≤ j := of_decide_eq_true h0
          have hlt' : j < (c.options_list.length : Int) := of_decide_eq_true hlt
          have hsci' : (dt == "sci") = false := bool_not_true hsci
          rcases combo_int_roundtrip c j hmode' hitems' hnodup' hblank' h0'
            hlt' with ⟨c2, hset, hval⟩
          refine ⟨.combo c2, ?_, ?_, rfl⟩
          · show (FieldComboWidget.setValue c (.int j)).map Widget.combo = _
            rw [hset]
            rfl
          · show coerceRead dt (FieldComboWidget.value c2) = some (.int j)
            rw [hval]
            exact coerceRead_int_val dt j hsci'
      | none => simp [acceptsB] at h
      | bool b => simp [acceptsB] at h
      | float q => simp [acceptsB] at h
  | stack pages curIdx =>
      cases v with
      | str s =>
          simp only [acceptsB, Bool.and_eq_true] at h
          obtain ⟨⟨hname, hnor⟩, hfile⟩ := h
          obtain ⟨hsci, hint⟩ := bool_nor hnor
          have hmem : s ∈ pages.names := (pages_hasName_iff_mem pages s).mp hname
          have hidx : pages.names.indexOf s < pages.names.length :=
            List.indexOf_lt_length.mpr hmem
          refine ⟨.stack pages (pages.names.indexOf s : Int), ?_, ?_, rfl⟩
          · show some (stackSetValue pages curIdx (.str s)) = _
            simp [stackSetValue, hname]
          · have hraw : stackCurrentName pages (pages.names.indexOf s : Int)
                = s := by
              unfold stackCurrentName
              have hneg : ¬((pages.names.indexOf s : Int) < 0) := by omega
              simp only [hneg, if_false, Int.toNat_natCast]
              rw [List.getElem?_eq_getElem hidx]
              simp only [Option.getD_some]
              exact List.getElem_indexOf hidx
            show coerceRead dt (.str (stackCurrentName pages _)) = _
            rw [hraw]
            apply coerceRead_id dt (.str s) hsci hint
            intro hf
            by_cases hs : s = "None"
            · subst hs
              rw [hf] at hfile
              simp at hfile
            · simp [hs]
      | none => simp [acceptsB] at h
      | bool b => simp [acceptsB] at h
      | int n => simp [acceptsB] at h
      | float q => simp [acceptsB] at h

end SleapForm

namespace SleapForm

/-- C6 counterexample: for the stacked form `formStacked` the page field `a`
is an existing field name (it appears in `get_form_data`'s result), yet
`set_form_data` only reaches top-level fields, so writing `a = 5` is
silently ignored and reading back still yields the page's old value `1`. -/
theorem c6_counterexample :
    set_form_data formStacked [("a", .int 5)] = some formStacked ∧
    get_form_data formStacked = some [("stk", .str "p"), ("a", .int 1)] ∧
    dictLookup "a" [("stk", .str "p"), ("a", .int 1)] = some (.int 1) ∧
    some (Value.int 1) ≠ some (Value.int 5) := by decide

/-- C6 (amended): writing a Value Mapping with `set_form_data` and reading
back with `get_form_data` returns exactly the written entries, provided the
keys name *top-level* fields (names are unique; `set_form_data` does not
descend into stacked pages), every value satisfies its field's constraints
(`acceptsB`: matching kind, spinner range and decimal grid, a valid
zero-based index — not `None` — for an optional-index list, an existing
option text for a plain list, an existing page name for a stack), and no
currently selected stack page contributes an entry under a written key. -/
theorem c6_roundtrip (f : Form) (m : List (String × Value)) (f₂ : Form)
    (D : List (String × Value))
    (hnodupF : (f.toList.map (fun p => p.1)).Nodup)
    (hnodupM : (m.map (fun p => p.1)).Nodup)
    (hacc : ∀ kv ∈ m, ∃ ent ∈ f.toList, ent.1 = kv.1 ∧ ent.1 ≠ "" ∧
        acceptsB ent.2.1 ent.2.2 kv.2 = true)
    (hset : set_form_data f m = some f₂)
    (hget : get_form_data f₂ = some D)
    (hshadow : ∀ ent ∈ f₂.toList, ∀ kv ∈ m,
        widgetContribKey ent.2.2 kv.1 = false) :
    ∀ kv ∈ m, dictLookup kv.1 D = some kv.2 := by
  intro kv hkv
  rcases hacc kv hkv with ⟨ent, hent, hname, hne, haccb⟩
  have hlook : formLookup f kv.1 = some (ent.2.1, ent.2.2) := by
    rw [← hname]
    exact lookup_of_mem_nodup f hnodupF ent hent
  rcases (set_form_data_lookup m f f₂ hset hnodupM).2 kv hkv ent.2.1 ent.2.2
    hlook with ⟨w', hsetw, hlook2⟩
  rcases widget_roundtrip ent.2.1 ent.2.2 kv.2 haccb with
    ⟨w'', hset2, hget2, hbtn2⟩
  have hw : w'' = w' := by
    rw [hsetw] at hset2
    exact Option.some.inj hset2.symm
  subst hw
  rcases get_form_data_inv f₂ D hget with ⟨top, upds, htop, hupds, hD⟩
  subst hD
  have hnokey : ∀ pd ∈ upds, ∀ p ∈ pd, p.1 ≠ kv.1 :=
    stackDatasF_no_key f₂ upds kv.1 hupds
      (fun ent2 hent2 => hshadow ent2 hent2 kv hkv)
  rw [dictLookup_foldl_updates upds top kv.1 hnokey]
  exact topFormData_lookup f₂ top kv.1 ent.2.1 w'' kv.2 htop hlook2
    (hname ▸ hne) hbtn2 hget2

/-- C6 witness: the amended round trip instantiated on the mixed form
`formMixed` and the mapping `mixedData`, all hypotheses evaluated. -/
theorem c6_roundtrip_witness :
    (((formMixed.toList.map (fun p => p.1)).Nodup) ∧
     ((mixedData.map (fun p => p.1)).Nodup) ∧
     (∀ kv ∈ mixedData, ∃ ent ∈ formMixed.toList, ent.1 = kv.1 ∧
        ent.1 ≠ "" ∧ acceptsB ent.2.1 ent.2.2 kv.2 = true) ∧
     set_form_data formMixed mixedData = some formMixedSet ∧
     get_form_data formMixedSet = some mixedOut ∧
     (∀ ent ∈ formMixedSet.toList, ∀ kv ∈ mixedData,
        widgetContribKey ent.2.2 kv.1 = false)) ∧
    (∀ kv ∈ mixedData, dictLookup kv.1 mixedOut = some kv.2) :=
  ⟨⟨by decide, by decide, by decide, by decide, by decide, by decide⟩,
    c6_roundtrip formMixed mixedData formMixedSet mixedOut (by decide)
      (by decide) (by decide) (by decide) (by decide) (by decide)⟩

end SleapForm
